import Mathlib

/-!
# PANO — verification of the graph/entity core

Shallow embedding of the PANO OSINT tool's graph/entity core:
`entities/event.py`, `entities/email.py`, `ui/managers/graph_manager.py`,
`pano.py` (save/load of investigations, `DateTimeEncoder`),
`ui/components/node_visual.py` (`_execute_transform`) and
`transforms/username_search.py`.

Python `dict`s are embedded as association lists (`List (String × α)`) with
Python's insertion-order semantics: `setKey` replaces the value at the first
occurrence in place or appends at the end, `in` is `hasKey`, `pop` is
`eraseKey`.  Python `datetime` objects are embedded as the `DateTime`
structure together with executable `isoformat` / `fromisoformat`
functions mirroring `datetime.isoformat()` and `datetime.fromisoformat()`.
-/

namespace Pano

/-! ## Python datetime: structure, `isoformat`, `fromisoformat` -/

/-- Embedding of a Python `datetime.datetime` value (naive, no tzinfo). -/
structure DateTime where
  year : Nat
  month : Nat
  day : Nat
  hour : Nat
  minute : Nat
  second : Nat
  microsecond : Nat
deriving DecidableEq, Repr

/-- Gregorian leap-year test, as used by Python's `datetime`. -/
def isLeap (y : Nat) : Bool := y % 4 == 0 && (y % 100 != 0 || y % 400 == 0)

/-- Number of days in a month, as used by Python's `datetime`. -/
def daysInMonth (y m : Nat) : Nat :=
  if m = 2 then (if isLeap y then 29 else 28)
  else if m = 4 ∨ m = 6 ∨ m = 9 ∨ m = 11 then 30
  else 31

/-- The range constraints a Python `datetime` object enforces at
construction (`MINYEAR = 1`, `MAXYEAR = 9999`, calendar-valid day). -/
def DateTime.isValid (d : DateTime) : Bool :=
  1 ≤ d.year && d.year ≤ 9999 && 1 ≤ d.month && d.month ≤ 12 &&
  1 ≤ d.day && d.day ≤ daysInMonth d.year d.month &&
  d.hour ≤ 23 && d.minute ≤ 59 && d.second ≤ 59 && d.microsecond ≤ 999999

/-- The decimal digit character for `n % 10`-style values. -/
def toDigit (n : Nat) : Char := Char.ofNat (48 + n)

/-- Zero-padded fixed-width decimal rendering, most significant digit
first: `padNum 4 37 = ['0','0','3','7']`. -/
def padNum : Nat → Nat → List Char
  | 0, _ => []
  | k+1, n => toDigit (n / 10 ^ k) :: padNum k (n % 10 ^ k)

/-- `datetime.isoformat()`: `YYYY-MM-DDTHH:MM:SS`, with `.ffffff`
appended exactly when the microsecond field is nonzero. -/
def DateTime.isoformat (d : DateTime) : String :=
  String.mk (padNum 4 d.year ++ '-' :: padNum 2 d.month ++ '-' :: padNum 2 d.day ++
    'T' :: padNum 2 d.hour ++ ':' :: padNum 2 d.minute ++ ':' :: padNum 2 d.second ++
    (if d.microsecond = 0 then [] else '.' :: padNum 6 d.microsecond))

/-- Numeric value of a decimal digit character. -/
def digitVal (c : Char) : Option Nat :=
  if 48 ≤ c.toNat ∧ c.toNat ≤ 57 then some (c.toNat - 48) else none

/-- Parse exactly `k` decimal digits from the front of the character
list, folding them onto the accumulator. -/
def parseDigits : Nat → Nat → List Char → Option (Nat × List Char)
  | 0, acc, cs => some (acc, cs)
  | _+1, _, [] => none
  | k+1, acc, c :: cs =>
    match digitVal c with
    | some v => parseDigits k (acc * 10 + v) cs
    | none => none

/-- Consume one expected literal character. -/
def expectChar (ch : Char) : List Char → Option (List Char)
  | [] => none
  | c :: cs => if c = ch then some cs else none

/-- Parse the time-of-day tail `HH:MM[:SS[.ffffff]]` of an ISO string. -/
def parseTimePart (cs : List Char) : Option (Nat × Nat × Nat × Nat) := do
  let (h, cs) ← parseDigits 2 0 cs
  let cs ← expectChar ':' cs
  let (mi, cs) ← parseDigits 2 0 cs
  match cs with
  | [] => some (h, mi, 0, 0)
  | ':' :: cs => do
    let (s, cs) ← parseDigits 2 0 cs
    match cs with
    | [] => some (h, mi, s, 0)
    | '.' :: cs => do
      let (us, cs) ← parseDigits 6 0 cs
      if cs = [] then some (h, mi, s, us) else none
    | _ => none
  | _ => none

/-- `datetime.fromisoformat`: parses `YYYY-MM-DD[THH:MM[:SS[.ffffff]]]`,
rejecting out-of-range field values (Python raises `ValueError`, embedded
here as `none`). -/
def DateTime.fromisoformat (s : String) : Option DateTime := do
  let cs := s.data
  let (y, cs) ← parseDigits 4 0 cs
  let cs ← expectChar '-' cs
  let (mo, cs) ← parseDigits 2 0 cs
  let cs ← expectChar '-' cs
  let (dy, cs) ← parseDigits 2 0 cs
  let (h, mi, sec, us) ←
    match cs with
    | [] => some (0, 0, 0, 0)
    | 'T' :: rest => parseTimePart rest
    | _ => none
  let d : DateTime := ⟨y, mo, dy, h, mi, sec, us⟩
  if d.isValid then some d else none

/-! ### Print/parse round trip for the ISO format -/

theorem digitVal_toDigit (v : Nat) (hv : v < 10) : digitVal (toDigit v) = some v := by
  interval_cases v <;> decide

theorem parseDigits_padNum : ∀ (k a n : Nat), n < 10 ^ k → ∀ rest : List Char,
    parseDigits k a (padNum k n ++ rest) = some (a * 10 ^ k + n, rest) := by
  intro k
  induction k with
  | zero =>
    intro a n hn rest
    interval_cases n
    simp [padNum, parseDigits]
  | succ k ih =>
    intro a n hn rest
    have hq : n / 10 ^ k < 10 := by
      have h10 : 10 ^ (k + 1) = 10 ^ k * 10 := by ring
      rw [h10] at hn
      exact Nat.div_lt_of_lt_mul (by omega)
    have hr : n % 10 ^ k < 10 ^ k := Nat.mod_lt _ (Nat.pos_pow_of_pos k (by omega))
    simp only [padNum, List.cons_append, parseDigits, digitVal_toDigit _ hq, List.append_eq]
    rw [ih (a * 10 + n / 10 ^ k) (n % 10 ^ k) hr rest]
    congr 2
    have hmod : n / 10 ^ k * 10 ^ k + n % 10 ^ k = n := Nat.div_add_mod' n (10 ^ k)
    calc (a * 10 + n / 10 ^ k) * 10 ^ k + n % 10 ^ k
        = a * (10 ^ k * 10) + (n / 10 ^ k * 10 ^ k + n % 10 ^ k) := by ring
      _ = a * 10 ^ (k + 1) + n := by rw [hmod, pow_succ]

theorem parseDigits_padNum_nil (k a n : Nat) (hn : n < 10 ^ k) :
    parseDigits k a (padNum k n) = some (a * 10 ^ k + n, []) := by
  have h := parseDigits_padNum k a n hn []
  simpa using h

theorem expectChar_cons (c : Char) (cs : List Char) : expectChar c (c :: cs) = some cs := by
  simp [expectChar]

/-- Round trip: parsing the `isoformat` output of any in-range datetime
recovers the datetime exactly. -/
theorem fromisoformat_isoformat (d : DateTime) (hd : d.isValid = true) :
    DateTime.fromisoformat d.isoformat = some d := by
  obtain ⟨y, mo, dy, h, mi, s, us⟩ := d
  simp only [DateTime.isValid, Bool.and_eq_true, decide_eq_true_eq] at hd
  have hy : y < 10 ^ 4 := by omega
  have hmo : mo < 10 ^ 2 := by omega
  have hdy : dy < 10 ^ 2 := by
    have : daysInMonth y mo ≤ 31 := by
      simp only [daysInMonth]
      split <;> split <;> omega
    omega
  have hh : h < 10 ^ 2 := by omega
  have hmi : mi < 10 ^ 2 := by omega
  have hs : s < 10 ^ 2 := by omega
  have hvalid : DateTime.isValid ⟨y, mo, dy, h, mi, s, us⟩ = true := by
    simp only [DateTime.isValid, Bool.and_eq_true, decide_eq_true_eq]
    omega
  by_cases hus : us = 0
  · subst hus
    simp only [DateTime.isoformat, DateTime.fromisoformat, String.data, if_pos rfl,
      List.append_nil, List.append_assoc, List.cons_append,
      parseDigits_padNum 4 0 y hy, parseDigits_padNum 2 0 mo hmo,
      parseDigits_padNum 2 0 dy hdy, parseDigits_padNum 2 0 h hh,
      parseDigits_padNum 2 0 mi hmi, parseDigits_padNum_nil 2 0 s hs,
      expectChar_cons, parseTimePart, Option.bind_eq_bind, Option.some_bind,
      Nat.zero_mul, Nat.zero_add, hvalid, if_pos]
  · have hus6 : us < 10 ^ 6 := by omega
    simp only [DateTime.isoformat, DateTime.fromisoformat, String.data, if_neg hus,
      List.append_assoc, List.cons_append,
      parseDigits_padNum 4 0 y hy, parseDigits_padNum 2 0 mo hmo,
      parseDigits_padNum 2 0 dy hdy, parseDigits_padNum 2 0 h hh,
      parseDigits_padNum 2 0 mi hmi, parseDigits_padNum 2 0 s hs,
      parseDigits_padNum_nil 6 0 us hus6,
      expectChar_cons, parseTimePart, Option.bind_eq_bind, Option.some_bind,
      Nat.zero_mul, Nat.zero_add, hvalid, if_pos]

/-! ## Property values and Python-dict embedding -/

/-- A Python value stored in an entity's `properties` dict. -/
inductive Value where
  | str (s : String)
  | dt (d : DateTime)
  | bool (b : Bool)
  | int (n : Int)
deriving DecidableEq, Repr

/-- Python truthiness of a property value (`if value:`). -/
def Value.truthy : Value → Bool
  | .str s => !s.isEmpty
  | .dt _ => true
  | .bool b => b
  | .int n => n != 0

/-- A Python `dict` with `String` keys, kept in insertion order. -/
abbrev PyDict (α : Type) : Type := List (String × α)

/-- `d[k]` lookup (first occurrence). -/
def getVal {α : Type} (k : String) : PyDict α → Option α
  | [] => none
  | p :: rest => if p.1 = k then some p.2 else getVal k rest

/-- `k in d`. -/
def hasKey {α : Type} (k : String) (d : PyDict α) : Bool := (getVal k d).isSome

/-- `d[k] = v`: replace the value at the first occurrence of `k` in
place, or append a new entry at the end (Python dict assignment keeps
the key's insertion position). -/
def setKey {α : Type} (k : String) (v : α) : PyDict α → PyDict α
  | [] => [(k, v)]
  | p :: rest => if p.1 = k then (k, v) :: rest else p :: setKey k v rest

/-- `d.pop(k, None)`: drop the entries with key `k`. -/
def eraseKey {α : Type} (k : String) (d : PyDict α) : PyDict α :=
  d.filter (fun p => p.1 ≠ k)

theorem getVal_nil {α : Type} (k : String) : getVal k ([] : PyDict α) = none := rfl

theorem getVal_cons {α : Type} (k : String) (p : String × α) (d : PyDict α) :
    getVal k (p :: d) = if p.1 = k then some p.2 else getVal k d := rfl

theorem getVal_setKey_self {α : Type} (k : String) (v : α) (d : PyDict α) :
    getVal k (setKey k v d) = some v := by
  induction d with
  | nil => simp [setKey, getVal]
  | cons p rest ih =>
    by_cases hp : p.1 = k
    · simp [setKey, hp, getVal]
    · simp [setKey, hp, getVal, ih]

theorem getVal_setKey_ne {α : Type} (k k' : String) (v : α) (d : PyDict α) (h : k' ≠ k) :
    getVal k' (setKey k v d) = getVal k' d := by
  induction d with
  | nil => simp [setKey, getVal, Ne.symm h]
  | cons p rest ih =>
    by_cases hp : p.1 = k
    · simp [setKey, hp, getVal, Ne.symm h]
    · simp only [setKey, if_neg hp, getVal]
      by_cases hp' : p.1 = k'
      · simp [hp']
      · simp [hp', ih]

theorem setKey_of_getVal_self {α : Type} (k : String) (v : α) (d : PyDict α)
    (h : getVal k d = some v) : setKey k v d = d := by
  induction d with
  | nil => simp [getVal] at h
  | cons p rest ih =>
    by_cases hp : p.1 = k
    · simp only [getVal, if_pos hp, Option.some_inj] at h
      simp only [setKey, if_pos hp]
      rw [← hp, ← h]
    · simp only [getVal, if_neg hp] at h
      simp [setKey, hp, ih h]

theorem setKey_setKey_same {α : Type} (k : String) (v w : α) (d : PyDict α) :
    setKey k v (setKey k w d) = setKey k v d := by
  induction d with
  | nil => simp [setKey]
  | cons p rest ih =>
    by_cases hp : p.1 = k
    · simp [setKey, hp]
    · simp [setKey, hp, ih]

theorem setKey_comm_of_hasKey {α : Type} (k k' : String) (v v' : α) (d : PyDict α)
    (h : k ≠ k') (hk : hasKey k d = true) :
    setKey k v (setKey k' v' d) = setKey k' v' (setKey k v d) := by
  induction d with
  | nil => simp [hasKey, getVal] at hk
  | cons p rest ih =>
    by_cases hp : p.1 = k
    · simp [setKey, hp, Ne.symm h, h]
    · by_cases hp' : p.1 = k'
      · simp [setKey, hp, hp', Ne.symm h, h]
      · have hk' : hasKey k rest = true := by
          simpa [hasKey, getVal, hp] using hk
        simp [setKey, hp, hp', ih hk']

theorem eraseKey_cons_ne {α : Type} (k : String) (p : String × α) (d : PyDict α)
    (h : p.1 ≠ k) : eraseKey k (p :: d) = p :: eraseKey k d := by
  simp [eraseKey, List.filter, h]

theorem eraseKey_cons_self {α : Type} (k : String) (v : α) (d : PyDict α) :
    eraseKey k ((k, v) :: d) = eraseKey k d := by
  simp [eraseKey, List.filter]

theorem eraseKey_of_not_hasKey {α : Type} (k : String) (d : PyDict α)
    (h : hasKey k d = false) : eraseKey k d = d := by
  induction d with
  | nil => rfl
  | cons p rest ih =>
    simp only [hasKey, getVal] at h
    by_cases hp : p.1 = k
    · simp [hp] at h
    · simp only [hasKey] at ih
      rw [eraseKey_cons_ne k p rest hp, ih (by simpa [hp] using h)]

/-! ## Entities (`entities/base.py` is not in the source tree; its
contract is modelled from the spec) -/

/-- An entity: stable identifier, class-name tag, property dict
(`entities/base.py`'s `Entity`). -/
structure Entity where
  id : String
  etype : String
  properties : PyDict Value
deriving DecidableEq, Repr

/-- `self.properties.get(k, "")`-style property access used by the
`entity_property` descriptors (default is the empty string). -/
def Entity.getProp (e : Entity) (k : String) : Value :=
  (getVal k e.properties).getD (Value.str "")

/-- Modelled from the spec: `src/entities/base.py` (class `Entity`) is not in
the source tree.  Per spec §4.1 `to_dict` round-trips all properties; the
load code in `pano.py` (`properties['_id'] = node_data['id']`) shows the
identifier travels under the `"_id"` key, and `graph_manager.from_dict`
reconstructing entities from `Entity.from_dict(node_data['entity'])` alone
shows the class name travels in the dict (modelled under a `"type"` key). -/
def Entity.to_dict (e : Entity) : PyDict Value :=
  ("_id", .str e.id) :: ("type", .str e.etype) :: e.properties

/-- Modelled from the spec: base `from_dict` for class `ty` — reads the
identifier from `"_id"`, strips the reserved keys, keeps all remaining
entries as properties. -/
def Entity.from_dict_base (ty : String) (d : PyDict Value) : Entity :=
  { id := match getVal "_id" d with
          | some (.str s) => s
          | _ => ""
    etype := ty
    properties := eraseKey "type" (eraseKey "_id" d) }

/-- Modelled from the spec: base `get_display_properties` renders each
property value as a string (spec §4.1, display label/property rendering). -/
def Value.displayStr : Value → String
  | .str s => s
  | .dt d => d.isoformat
  | .bool b => if b then "True" else "False"
  | .int n => toString n

/-- Modelled from the spec: the base display mapping over all properties. -/
def Entity.get_display_properties (e : Entity) : PyDict String :=
  e.properties.map (fun p => (p.1, p.2.displayStr))

/-! ## `entities/event.py` -/

/-- `Event.start_date` property accessor. -/
def Event.start_date (e : Entity) : Value := e.getProp "start_date"

/-- `Event.end_date` property accessor. -/
def Event.end_date (e : Entity) : Value := e.getProp "end_date"

/-- `Event.name`: `self.properties.get("name", "") or "Event"`. -/
def Event.name (e : Entity) : String :=
  match getVal "name" e.properties with
  | some (.str s) => if s.isEmpty then "Event" else s
  | _ => "Event"

/-- `Event.description`: `self.properties.get("description", "")`. -/
def Event.description (e : Entity) : String :=
  match getVal "description" e.properties with
  | some (.str s) => s
  | _ => ""

/-- `datetime.fromisoformat(value)` applied to a dict value: a non-string
argument raises `TypeError`, an unparsable string raises `ValueError`;
both are embedded as `.error`. -/
def fromisoformatValue : Value → Except String DateTime
  | .str s =>
    match DateTime.fromisoformat s with
    | some d => .ok d
    | none => .error "ValueError: invalid isoformat string"
  | _ => .error "TypeError: fromisoformat argument must be str"

/-- `Event.to_dict` (`entities/event.py` lines 35-48): after the base
serialization, a truthy datetime-valued `start_date`/`end_date` is
replaced by its ISO string; a truthy string-valued one is written back
unchanged. -/
def Event.to_dict (e : Entity) : PyDict Value :=
  let data := Entity.to_dict e
  let data :=
    if (Event.start_date e).truthy then
      match Event.start_date e with
      | .dt d => setKey "start_date" (.str d.isoformat) data
      | .str s => setKey "start_date" (.str s) data
      | _ => data
    else data
  let data :=
    if (Event.end_date e).truthy then
      match Event.end_date e with
      | .dt d => setKey "end_date" (.str d.isoformat) data
      | .str s => setKey "end_date" (.str s) data
      | _ => data
    else data
  data

/-- `Event.from_dict` (`entities/event.py` lines 50-57): a present and
truthy `start_date`/`end_date` is passed to `datetime.fromisoformat`
(which raises on malformed input — no fallback here) before the base
deserialization. -/
def Event.from_dict (data : PyDict Value) : Except String Entity :=
  let step1 : Except String (PyDict Value) :=
    match getVal "start_date" data with
    | some v =>
      if v.truthy then
        match fromisoformatValue v with
        | .ok dd => .ok (setKey "start_date" (.dt dd) data)
        | .error msg => .error msg
      else .ok data
    | none => .ok data
  match step1 with
  | .error msg => .error msg
  | .ok data =>
    let step2 : Except String (PyDict Value) :=
      match getVal "end_date" data with
      | some v =>
        if v.truthy then
          match fromisoformatValue v with
          | .ok dd => .ok (setKey "end_date" (.dt dd) data)
          | .error msg => .error msg
        else .ok data
      | none => .ok data
    match step2 with
    | .error msg => .error msg
    | .ok data => .ok (Entity.from_dict_base "Event" data)

/-- `strftime("%Y-%m-%d %H:%M")` as used by
`Event.get_display_properties`. -/
def DateTime.strftimeShort (d : DateTime) : String :=
  String.mk (padNum 4 d.year ++ '-' :: padNum 2 d.month ++ '-' :: padNum 2 d.day ++
    ' ' :: padNum 2 d.hour ++ ':' :: padNum 2 d.minute)

/-- `Event.get_display_properties` (`entities/event.py` lines 59-84):
datetime-valued dates are formatted; string-valued dates are parsed and
formatted, falling back to the raw string when parsing fails. -/
def Event.get_display_properties (e : Entity) : PyDict String :=
  let props := Entity.get_display_properties e
  let props :=
    if (Event.start_date e).truthy then
      match Event.start_date e with
      | .dt d => setKey "start_date" d.strftimeShort props
      | .str s =>
        match DateTime.fromisoformat s with
        | some d => setKey "start_date" d.strftimeShort props
        | none => setKey "start_date" s props
      | _ => props
    else props
  let props :=
    if (Event.end_date e).truthy then
      match Event.end_date e with
      | .dt d => setKey "end_date" d.strftimeShort props
      | .str s =>
        match DateTime.fromisoformat s with
        | some d => setKey "end_date" d.strftimeShort props
        | none => setKey "end_date" s props
      | _ => props
    else props
  props

/-! ### Event serialization round trip -/

theorem isoformat_ne_empty (d : DateTime) : d.isoformat ≠ "" := by
  intro h
  have h2 := congrArg String.data h
  simp [DateTime.isoformat, padNum] at h2

theorem isoformat_truthy (d : DateTime) : (Value.str d.isoformat).truthy = true := by
  cases hb : d.isoformat.isEmpty with
  | false => simp [Value.truthy, hb]
  | true =>
    have h := (String.isEmpty_iff d.isoformat).mp (by simp [hb])
    exact absurd h (isoformat_ne_empty d)

/-- The shapes of a `start_date`/`end_date` property that survive the
`to_dict`/`from_dict` round trip: absent, empty string, or an in-range
datetime. -/
def dateFieldOk (v : Option Value) : Prop :=
  v = none ∨ v = some (.str "") ∨ ∃ d, v = some (.dt d) ∧ d.isValid = true

instance (v : Option Value) : Decidable (dateFieldOk v) := by
  unfold dateFieldOk
  rcases v with _ | v
  · exact .isTrue (Or.inl rfl)
  · rcases v with s | d | b | n
    · by_cases hs : s = ""
      · exact .isTrue (Or.inr (Or.inl (by rw [hs])))
      · exact .isFalse (by simp [hs])
    · by_cases hd : d.isValid = true
      · exact .isTrue (Or.inr (Or.inr ⟨d, rfl, hd⟩))
      · exact .isFalse (by simp [hd])
    · exact .isFalse (by simp)
    · exact .isFalse (by simp)

theorem event_roundtrip_core (e : Entity)
    (he : e.etype = "Event")
    (hid : hasKey "_id" e.properties = false)
    (hty : hasKey "type" e.properties = false)
    (hsd : dateFieldOk (getVal "start_date" e.properties))
    (hed : dateFieldOk (getVal "end_date" e.properties)) :
    Event.from_dict (Event.to_dict e) = .ok e := by
  obtain ⟨eid, ety, props⟩ := e
  simp only at he hid hty hsd hed
  subst he
  have hne1 : ¬(("_id" : String) = "start_date") := by decide
  have hne2 : ¬(("type" : String) = "start_date") := by decide
  have hne3 : ¬(("_id" : String) = "end_date") := by decide
  have hne4 : ¬(("type" : String) = "end_date") := by decide
  have hne5 : ¬(("start_date" : String) = "end_date") := by decide
  have hne6 : ¬(("end_date" : String) = "start_date") := by decide
  have hne7 : ¬(("type" : String) = "_id") := by decide
  have base_sd : getVal "start_date" (Entity.to_dict ⟨eid, "Event", props⟩) =
      getVal "start_date" props := by
    simp [Entity.to_dict, getVal_cons, hne1, hne2]
  have base_ed : getVal "end_date" (Entity.to_dict ⟨eid, "Event", props⟩) =
      getVal "end_date" props := by
    simp [Entity.to_dict, getVal_cons, hne3, hne4]
  have base_strip : Entity.from_dict_base "Event" (Entity.to_dict ⟨eid, "Event", props⟩) =
      ⟨eid, "Event", props⟩ := by
    have hprops : eraseKey "type" (eraseKey "_id" (Entity.to_dict ⟨eid, "Event", props⟩)) =
        props := by
      simp only [Entity.to_dict]
      rw [eraseKey_cons_self, eraseKey_cons_ne _ _ _ hne7,
        eraseKey_of_not_hasKey _ _ hid, eraseKey_cons_self,
        eraseKey_of_not_hasKey _ _ hty]
    simp only [Entity.from_dict_base, hprops]
    simp [Entity.to_dict, getVal_cons]
  have accs : Event.start_date ⟨eid, "Event", props⟩ =
      (getVal "start_date" props).getD (Value.str "") := rfl
  have acce : Event.end_date ⟨eid, "Event", props⟩ =
      (getVal "end_date" props).getD (Value.str "") := rfl
  have t_empty : (Value.str "").truthy = false := rfl
  have t_dt : ∀ d : DateTime, (Value.dt d).truthy = true := fun _ => rfl
  rcases hsd with hs | hs | ⟨d1, hs, hv1⟩ <;>
    rcases hed with hh | hh | ⟨d2, hh, hv2⟩
  -- start absent, end absent
  · have htd : Event.to_dict ⟨eid, "Event", props⟩ = Entity.to_dict ⟨eid, "Event", props⟩ := by
      simp only [Event.to_dict, accs, acce, hs, hh, Option.getD_none, t_empty,
        Bool.false_eq_true, if_false]
    rw [htd]
    simp [Event.from_dict, base_sd, base_ed, hs, hh, base_strip]
  -- start absent, end empty string
  · have htd : Event.to_dict ⟨eid, "Event", props⟩ = Entity.to_dict ⟨eid, "Event", props⟩ := by
      simp only [Event.to_dict, accs, acce, hs, hh, Option.getD_none, Option.getD_some,
        t_empty, Bool.false_eq_true, if_false]
    rw [htd]
    simp [Event.from_dict, base_sd, base_ed, hs, hh, t_empty, base_strip]
  -- start absent, end datetime
  · have hrest : getVal "end_date" (Entity.to_dict ⟨eid, "Event", props⟩) =
        some (Value.dt d2) := by rw [base_ed, hh]
    have htd : Event.to_dict ⟨eid, "Event", props⟩ =
        setKey "end_date" (Value.str d2.isoformat) (Entity.to_dict ⟨eid, "Event", props⟩) := by
      simp only [Event.to_dict, accs, acce, hs, hh, Option.getD_none, Option.getD_some,
        t_empty, Bool.false_eq_true, if_false, t_dt, if_true]
    rw [htd]
    simp [Event.from_dict, getVal_setKey_ne _ _ _ _ hne5, getVal_setKey_self,
      base_sd, hs, isoformat_truthy, fromisoformatValue,
      fromisoformat_isoformat d2 hv2, setKey_setKey_same,
      setKey_of_getVal_self _ _ _ hrest, base_strip]
  -- start empty string, end absent
  · have htd : Event.to_dict ⟨eid, "Event", props⟩ = Entity.to_dict ⟨eid, "Event", props⟩ := by
      simp only [Event.to_dict, accs, acce, hs, hh, Option.getD_none, Option.getD_some,
        t_empty, Bool.false_eq_true, if_false]
    rw [htd]
    simp [Event.from_dict, base_sd, base_ed, hs, hh, t_empty, base_strip]
  -- start empty string, end empty string
  · have htd : Event.to_dict ⟨eid, "Event", props⟩ = Entity.to_dict ⟨eid, "Event", props⟩ := by
      simp only [Event.to_dict, accs, acce, hs, hh, Option.getD_some,
        t_empty, Bool.false_eq_true, if_false]
    rw [htd]
    simp [Event.from_dict, base_sd, base_ed, hs, hh, t_empty, base_strip]
  -- start empty string, end datetime
  · have hrest : getVal "end_date" (Entity.to_dict ⟨eid, "Event", props⟩) =
        some (Value.dt d2) := by rw [base_ed, hh]
    have htd : Event.to_dict ⟨eid, "Event", props⟩ =
        setKey "end_date" (Value.str d2.isoformat) (Entity.to_dict ⟨eid, "Event", props⟩) := by
      simp only [Event.to_dict, accs, acce, hs, hh, Option.getD_some,
        t_empty, Bool.false_eq_true, if_false, t_dt, if_true]
    rw [htd]
    simp [Event.from_dict, getVal_setKey_ne _ _ _ _ hne5, getVal_setKey_self,
      base_sd, hs, isoformat_truthy, fromisoformatValue,
      fromisoformat_isoformat d2 hv2, setKey_setKey_same,
      setKey_of_getVal_self _ _ _ hrest, t_empty, base_strip]
  -- start datetime, end absent
  · have hrest : getVal "start_date" (Entity.to_dict ⟨eid, "Event", props⟩) =
        some (Value.dt d1) := by rw [base_sd, hs]
    have htd : Event.to_dict ⟨eid, "Event", props⟩ =
        setKey "start_date" (Value.str d1.isoformat) (Entity.to_dict ⟨eid, "Event", props⟩) := by
      simp only [Event.to_dict, accs, acce, hs, hh, Option.getD_none, Option.getD_some,
        t_empty, Bool.false_eq_true, if_false, t_dt, if_true]
    rw [htd]
    simp [Event.from_dict, getVal_setKey_self, isoformat_truthy,
      fromisoformatValue, fromisoformat_isoformat d1 hv1,
      setKey_setKey_same, setKey_of_getVal_self _ _ _ hrest,
      getVal_setKey_ne _ _ _ _ hne6, base_ed, hh, base_strip]
  -- start datetime, end empty string
  · have hrest : getVal "start_date" (Entity.to_dict ⟨eid, "Event", props⟩) =
        some (Value.dt d1) := by rw [base_sd, hs]
    have htd : Event.to_dict ⟨eid, "Event", props⟩ =
        setKey "start_date" (Value.str d1.isoformat) (Entity.to_dict ⟨eid, "Event", props⟩) := by
      simp only [Event.to_dict, accs, acce, hs, hh, Option.getD_some,
        t_empty, Bool.false_eq_true, if_false, t_dt, if_true]
    rw [htd]
    simp [Event.from_dict, getVal_setKey_self, isoformat_truthy,
      fromisoformatValue, fromisoformat_isoformat d1 hv1,
      setKey_setKey_same, setKey_of_getVal_self _ _ _ hrest,
      getVal_setKey_ne _ _ _ _ hne6, base_ed, hh, t_empty, base_strip]
  -- start datetime, end datetime
  · have hrest_s : getVal "start_date" (Entity.to_dict ⟨eid, "Event", props⟩) =
        some (Value.dt d1) := by rw [base_sd, hs]
    have hrest_e : getVal "end_date" (Entity.to_dict ⟨eid, "Event", props⟩) =
        some (Value.dt d2) := by rw [base_ed, hh]
    have hkey_s : hasKey "start_date" (setKey "start_date"
        (Value.str d1.isoformat) (Entity.to_dict ⟨eid, "Event", props⟩)) = true := by
      simp [hasKey, getVal_setKey_self]
    have htd : Event.to_dict ⟨eid, "Event", props⟩ =
        setKey "end_date" (Value.str d2.isoformat)
          (setKey "start_date" (Value.str d1.isoformat) (Entity.to_dict ⟨eid, "Event", props⟩)) := by
      simp only [Event.to_dict, accs, acce, hs, hh, Option.getD_some, t_dt, if_true]
    rw [htd]
    have hstep : setKey "start_date" (Value.dt d1)
        (setKey "end_date" (Value.str d2.isoformat)
          (setKey "start_date" (Value.str d1.isoformat) (Entity.to_dict ⟨eid, "Event", props⟩))) =
        setKey "end_date" (Value.str d2.isoformat) (Entity.to_dict ⟨eid, "Event", props⟩) := by
      rw [setKey_comm_of_hasKey _ _ _ _ _ hne5 hkey_s, setKey_setKey_same,
        setKey_of_getVal_self _ _ _ hrest_s]
    simp [Event.from_dict, getVal_setKey_ne _ _ _ _ hne5, getVal_setKey_ne _ _ _ _ hne6,
      getVal_setKey_self, isoformat_truthy, fromisoformatValue,
      fromisoformat_isoformat d1 hv1, fromisoformat_isoformat d2 hv2,
      hstep, setKey_setKey_same, setKey_of_getVal_self _ _ _ hrest_e, base_strip]

/-! ## Graph manager (`ui/managers/graph_manager.py`) -/

/-- A canvas coordinate (`QPointF`; the numeric type plays no role in any
claim, so coordinates are embedded as integers). -/
structure Pos where
  x : Int
  y : Int
deriving DecidableEq, Repr

/-- Modelled from the spec: `ui/dialogs/timeline_editor.py` (class
`TimelineEvent`) is not in the source tree; its fields are those set by
`GraphManager.add_node` (`title`, `description`, `start_time`, `end_time`,
`color`) plus the `source_entity_id` attribute attached afterwards. -/
structure TimelineEvent where
  title : String
  description : String
  start_time : Value
  end_time : Value
  color : String
  source_entity_id : String
deriving DecidableEq, Repr

/-- `NodeVisual` (`ui/components/node_visual.py`): the graphics item
wrapping an entity at a canvas position (the `node` attribute is the
entity, as in `node.node.id`). -/
structure NodeVisual where
  node : Entity
  pos : Pos
deriving DecidableEq, Repr

/-- Modelled from the spec: `ui/components/edge_visual.py` is not in the
source tree.  An edge's visual style: Qt pen-style enumeration value,
color name and width, as saved by `pano.py`. -/
structure EdgeStyle where
  style : Int
  color : String
  width : Int
deriving DecidableEq, Repr

/-- Modelled from the spec: `ui/components/edge_visual.py` is not in the
source tree.  `EdgeVisual(source, target, relationship)` keeps references
to the two endpoint `NodeVisual`s and the relationship text; `label` and
`properties` are optional attributes only present when set afterwards
(`hasattr` checks in `pano.py`). -/
structure EdgeVisual where
  source : NodeVisual
  target : NodeVisual
  relationship : String
  style : EdgeStyle
  label : Option String := none
  eprops : Option (PyDict Value) := none
deriving DecidableEq, Repr

/-- Modelled from the spec: the default style a fresh `EdgeVisual` is
drawn with (`Qt.PenStyle.SolidLine = 1`). -/
def defaultEdgeStyle : EdgeStyle := ⟨1, "#000000", 1⟩

/-- The `add_to_timeline` check in `GraphManager.add_node`:
`entity.properties.get("add_to_timeline", True)` under Python truthiness. -/
def addToTimelineFlag (e : Entity) : Bool :=
  ((getVal "add_to_timeline" e.properties).getD (Value.bool true)).truthy

/-- Whether the timeline hook fires for an entity: it is an `Event` with
truthy start and end dates and the `add_to_timeline` flag enabled.
(`hasattr(window, 'timeline_manager')` always holds for the main window.) -/
def timelineHookFires (e : Entity) : Bool :=
  e.etype == "Event" && (Event.start_date e).truthy && (Event.end_date e).truthy &&
    addToTimelineFlag e

/-- The timeline entry built by `GraphManager.add_node` for an event
entity (`TimelineEvent(title=..., description=..., start_time=...,
end_time=..., color=...)` with `source_entity_id` attached). -/
def mkTimelineEvent (e : Entity) : TimelineEvent :=
  { title := Event.name e
    description := Event.description e
    start_time := Event.start_date e
    end_time := Event.end_date e
    color := "#F22416"
    source_entity_id := e.id }

/-- The graph manager's state: the `nodes` and `edges` dicts, plus the
timeline collaborator's event list (`window.timeline_manager`), which the
graph manager's hooks append to and delete from. -/
structure GraphManager where
  nodes : PyDict NodeVisual
  edges : PyDict EdgeVisual
  timeline : List TimelineEvent
deriving DecidableEq, Repr

/-- The empty manager (fresh view). -/
def GraphManager.empty : GraphManager := ⟨[], [], []⟩

/-- `GraphManager.add_node` (lines 28-58): returns the existing visual
unchanged if the id is present; otherwise inserts a fresh `NodeVisual`
and, for event entities with dates, notifies the timeline collaborator. -/
def GraphManager.add_node (g : GraphManager) (entity : Entity) (pos : Pos) :
    GraphManager × NodeVisual :=
  match getVal entity.id g.nodes with
  | some node => (g, node)
  | none =>
    let node : NodeVisual := ⟨entity, pos⟩
    let g := { g with nodes := g.nodes ++ [(entity.id, node)] }
    let g :=
      if timelineHookFires entity then
        { g with timeline := g.timeline ++ [mkTimelineEvent entity] }
      else g
    (g, node)

/-- `GraphManager.add_edge` (lines 60-76): returns nothing if either
endpoint id is absent; otherwise keyed by the `"source->target"` string —
an existing edge is returned as is, else a fresh edge is appended. -/
def GraphManager.add_edge (g : GraphManager) (source_id target_id : String)
    (relationship : String) : GraphManager × Option EdgeVisual :=
  match getVal source_id g.nodes, getVal target_id g.nodes with
  | some source, some target =>
    let edge_id := source_id ++ "->" ++ target_id
    match getVal edge_id g.edges with
    | some edge => (g, some edge)
    | none =>
      let edge : EdgeVisual := ⟨source, target, relationship, defaultEdgeStyle, none, none⟩
      ({ g with edges := g.edges ++ [(edge_id, edge)] }, some edge)
  | _, _ => (g, none)

/-- `GraphManager.remove_node` (lines 116-152): no-op when the id is
unknown; otherwise removes every edge whose source or target carries the
id, then the node itself, then any timeline entries keyed to the id when
the node held an event entity. -/
def GraphManager.remove_node (g : GraphManager) (node_id : String) : GraphManager :=
  match getVal node_id g.nodes with
  | none => g
  | some node =>
    let edges := g.edges.filter
      (fun p => ¬(p.2.source.node.id = node_id ∨ p.2.target.node.id = node_id))
    let nodes := g.nodes.filter (fun p => p.1 ≠ node_id)
    let timeline :=
      if node.node.etype == "Event" then
        g.timeline.filter (fun tv => tv.source_entity_id ≠ node_id)
      else g.timeline
    ⟨nodes, edges, timeline⟩

/-- `GraphManager.clear` (lines 154-164): edges first, then nodes; the
timeline collaborator is not touched. -/
def GraphManager.clear (g : GraphManager) : GraphManager :=
  { g with nodes := [], edges := [] }

/-- Virtual dispatch of `to_dict`: only `Event` overrides the base
serialization (`grep "def to_dict" src/entities` → `event.py` only). -/
def entityToDict (e : Entity) : PyDict Value :=
  if e.etype == "Event" then Event.to_dict e else Entity.to_dict e

/-- Modelled from the spec: the class-indexed deserialization used by
`Entity.from_dict(node_data['entity'])` in `graph_manager.from_dict` —
dispatching on the class tag carried in the dict; only `Event` overrides
the base `from_dict`.  Base deserialization cannot fail. -/
def entityFromDict (d : PyDict Value) : Except String Entity :=
  match getVal "type" d with
  | some (.str "Event") => Event.from_dict d
  | some (.str ty) => .ok (Entity.from_dict_base ty d)
  | _ => .ok (Entity.from_dict_base "" d)

/-- One entry of `graph_manager.to_dict()['nodes']`. -/
structure GMNodeData where
  entity : PyDict Value
  pos : Pos
deriving DecidableEq, Repr

/-- One entry of `graph_manager.to_dict()['edges']`. -/
structure GMEdgeData where
  source : String
  target : String
  relationship : String
  style : Int
deriving DecidableEq, Repr

/-- The snapshot produced by `GraphManager.to_dict` (lines 166-190). -/
structure GMData where
  nodes : PyDict GMNodeData
  edges : PyDict GMEdgeData
deriving DecidableEq, Repr

/-- `GraphManager.to_dict` (lines 166-190). -/
def GraphManager.to_dict (g : GraphManager) : GMData :=
  { nodes := g.nodes.map (fun p => (p.1, ⟨entityToDict p.2.node, p.2.pos⟩))
    edges := g.edges.map (fun p =>
      (p.1, ⟨p.2.source.node.id, p.2.target.node.id, p.2.relationship, p.2.style.style⟩)) }

/-- The edge-style restore in `graph_manager.from_dict`:
`edge.style.style = Qt.PenStyle(edge_data['style'])` mutates the stored
edge at the computed edge key. -/
def GraphManager.setEdgeStyle (g : GraphManager) (edge_id : String) (v : Int) : GraphManager :=
  { g with edges := g.edges.map (fun p =>
      if p.1 = edge_id then (p.1, { p.2 with style := { p.2.style with style := v } }) else p) }

/-- The node-restoring loop of `graph_manager.from_dict` (lines 196-203);
a failing entity deserialization propagates (the Python loop raises out
of `from_dict`). -/
def GraphManager.loadNodes (g : GraphManager) : PyDict GMNodeData → Except String GraphManager
  | [] => .ok g
  | nd :: rest =>
    match entityFromDict nd.2.entity with
    | .error msg => .error msg
    | .ok entity => GraphManager.loadNodes (g.add_node entity nd.2.pos).1 rest

/-- The edge-restoring loop of `graph_manager.from_dict` (lines 205-214):
`add_edge`, then restore the pen style when an edge was produced. -/
def GraphManager.loadEdges (g : GraphManager) : PyDict GMEdgeData → GraphManager
  | [] => g
  | ed :: rest =>
    let r := g.add_edge ed.2.source ed.2.target ed.2.relationship
    let g :=
      match r.2 with
      | some _ => r.1.setEdgeStyle (ed.2.source ++ "->" ++ ed.2.target) ed.2.style
      | none => r.1
    GraphManager.loadEdges g rest

/-- `GraphManager.from_dict` (lines 192-217): clear, restore nodes, then
restore edges. -/
def GraphManager.from_dict (g : GraphManager) (data : GMData) : Except String GraphManager :=
  match (g.clear).loadNodes data.nodes with
  | .error msg => .error msg
  | .ok g => .ok (g.loadEdges data.edges)

/-! ### The edge-endpoint invariant (claim C5) -/

/-- Every node-dict entry's visual wraps the entity it is keyed by
(maintained by `add_node`, which keys by `entity.id`). -/
def nodesKeyed (g : GraphManager) : Prop :=
  ∀ p ∈ g.nodes, p.2.node.id = p.1

/-- Both endpoints of every edge reference nodes currently present in the
node collection. -/
def edgesConsistent (g : GraphManager) : Prop :=
  ∀ p ∈ g.edges, hasKey p.2.source.node.id g.nodes = true ∧
    hasKey p.2.target.node.id g.nodes = true

/-- The graph invariant: node keys match entity ids, and all edge
endpoints are present. -/
def GraphInv (g : GraphManager) : Prop := nodesKeyed g ∧ edgesConsistent g

instance (g : GraphManager) : Decidable (nodesKeyed g) := by
  unfold nodesKeyed; infer_instance

instance (g : GraphManager) : Decidable (edgesConsistent g) := by
  unfold edgesConsistent; infer_instance

instance (g : GraphManager) : Decidable (GraphInv g) := by
  unfold GraphInv; infer_instance

theorem hasKey_append_right {α : Type} (k : String) (d : PyDict α) (q : String × α)
    (h : hasKey k d = true) : hasKey k (d ++ [q]) = true := by
  induction d with
  | nil => simp [hasKey, getVal] at h
  | cons p rest ih =>
    by_cases hp : p.1 = k
    · simp [hasKey, getVal, hp]
    · simp only [hasKey, getVal, hp, if_neg hp, List.cons_append] at h ⊢
      exact ih h

theorem hasKey_filter_ne {α : Type} (k bad : String) (d : PyDict α)
    (hne : k ≠ bad) (h : hasKey k d = true) :
    hasKey k (d.filter (fun p => p.1 ≠ bad)) = true := by
  induction d with
  | nil => simp [hasKey, getVal] at h
  | cons p rest ih =>
    by_cases hbad : p.1 = bad
    · have hp : p.1 ≠ k := by rw [hbad]; exact fun hh => hne hh.symm
      simp only [hasKey, getVal, if_neg hp] at h
      rw [List.filter_cons_of_neg (by simp [hbad])]
      exact ih h
    · rw [List.filter_cons_of_pos (by simp [hbad])]
      by_cases hp : p.1 = k
      · simp [hasKey, getVal, hp]
      · simp only [hasKey, getVal, if_neg hp] at h ⊢
        exact ih h

theorem getVal_eq_some_of_mem {α : Type} (d : PyDict α) (k : String)
    (h : hasKey k d = true) : ∃ v, getVal k d = some v ∧ (k, v) ∈ d := by
  induction d with
  | nil => simp [hasKey, getVal] at h
  | cons p rest ih =>
    by_cases hp : p.1 = k
    · exact ⟨p.2, by simp [getVal, hp], by rw [← hp, Prod.mk.eta]; exact List.mem_cons_self p rest⟩
    · simp only [hasKey, getVal, if_neg hp] at h
      obtain ⟨v, hv, hmem⟩ := ih h
      exact ⟨v, by simp [getVal, hp, hv], by right; exact hmem⟩

theorem mem_of_getVal_eq_some {α : Type} (d : PyDict α) (k : String) (v : α)
    (h : getVal k d = some v) : (k, v) ∈ d := by
  induction d with
  | nil => simp [getVal] at h
  | cons p rest ih =>
    by_cases hp : p.1 = k
    · simp only [getVal, if_pos hp, Option.some_inj] at h
      rw [← hp, ← h, Prod.mk.eta]
      exact List.mem_cons_self p rest
    · simp only [getVal, if_neg hp] at h
      exact List.mem_cons_of_mem p (ih h)

theorem add_node_of_present (g : GraphManager) (e : Entity) (pos : Pos) (n : NodeVisual)
    (hc : getVal e.id g.nodes = some n) : g.add_node e pos = (g, n) := by
  unfold GraphManager.add_node
  rw [hc]

theorem add_node_nodes_of_absent (g : GraphManager) (e : Entity) (pos : Pos)
    (hc : getVal e.id g.nodes = none) :
    (g.add_node e pos).1.nodes = g.nodes ++ [(e.id, ⟨e, pos⟩)] := by
  unfold GraphManager.add_node
  rw [hc]
  by_cases hook : timelineHookFires e = true <;> simp [hook]

theorem add_node_edges_of_absent (g : GraphManager) (e : Entity) (pos : Pos)
    (hc : getVal e.id g.nodes = none) :
    (g.add_node e pos).1.edges = g.edges := by
  unfold GraphManager.add_node
  rw [hc]
  by_cases hook : timelineHookFires e = true <;> simp [hook]

theorem add_node_timeline_of_absent (g : GraphManager) (e : Entity) (pos : Pos)
    (hc : getVal e.id g.nodes = none) :
    (g.add_node e pos).1.timeline =
      if timelineHookFires e then g.timeline ++ [mkTimelineEvent e] else g.timeline := by
  unfold GraphManager.add_node
  rw [hc]
  by_cases hook : timelineHookFires e = true <;> simp [hook]

theorem add_edge_of_missing_endpoint (g : GraphManager) (s t r : String)
    (hc : getVal s g.nodes = none ∨ getVal t g.nodes = none) :
    g.add_edge s t r = (g, none) := by
  unfold GraphManager.add_edge
  rcases hc with hc | hc
  · cases ht : getVal t g.nodes <;> simp [hc, ht]
  · cases hs : getVal s g.nodes <;> simp [hs, hc]

theorem add_edge_of_existing (g : GraphManager) (s t r : String)
    (src tgt : NodeVisual) (edge : EdgeVisual)
    (hs : getVal s g.nodes = some src) (ht : getVal t g.nodes = some tgt)
    (he : getVal (s ++ "->" ++ t) g.edges = some edge) :
    g.add_edge s t r = (g, some edge) := by
  unfold GraphManager.add_edge
  simp only [hs, ht, he]

theorem add_edge_of_new (g : GraphManager) (s t r : String)
    (src tgt : NodeVisual)
    (hs : getVal s g.nodes = some src) (ht : getVal t g.nodes = some tgt)
    (he : getVal (s ++ "->" ++ t) g.edges = none) :
    g.add_edge s t r =
      ({ g with edges := g.edges ++ [(s ++ "->" ++ t, ⟨src, tgt, r, defaultEdgeStyle, none, none⟩)] },
       some ⟨src, tgt, r, defaultEdgeStyle, none, none⟩) := by
  unfold GraphManager.add_edge
  simp only [hs, ht, he]

/-! ### Invariant preservation -/

theorem clear_inv (g : GraphManager) : GraphInv g.clear := by
  constructor
  · intro p hp
    simp [GraphManager.clear] at hp
  · intro p hp
    simp [GraphManager.clear] at hp

theorem add_node_inv (g : GraphManager) (e : Entity) (pos : Pos) (h : GraphInv g) :
    GraphInv (g.add_node e pos).1 := by
  cases hc : getVal e.id g.nodes with
  | some node => rw [add_node_of_present g e pos node hc]; exact h
  | none =>
    constructor
    · intro p hp
      rw [add_node_nodes_of_absent g e pos hc] at hp
      rcases List.mem_append.mp hp with hp | hp
      · exact h.1 p hp
      · simp only [List.mem_singleton] at hp
        rw [hp]
    · intro p hp
      rw [add_node_edges_of_absent g e pos hc] at hp
      have := h.2 p hp
      rw [add_node_nodes_of_absent g e pos hc]
      exact ⟨hasKey_append_right _ _ _ this.1, hasKey_append_right _ _ _ this.2⟩

theorem add_edge_inv (g : GraphManager) (s t r : String) (h : GraphInv g) :
    GraphInv (g.add_edge s t r).1 := by
  cases hs : getVal s g.nodes with
  | none => rw [add_edge_of_missing_endpoint g s t r (Or.inl hs)]; exact h
  | some src =>
    cases ht : getVal t g.nodes with
    | none => rw [add_edge_of_missing_endpoint g s t r (Or.inr ht)]; exact h
    | some tgt =>
      cases he : getVal (s ++ "->" ++ t) g.edges with
      | some edge => rw [add_edge_of_existing g s t r src tgt edge hs ht he]; exact h
      | none =>
        rw [add_edge_of_new g s t r src tgt hs ht he]
        constructor
        · intro p hp
          exact h.1 p hp
        · intro p hp
          rcases List.mem_append.mp hp with hp | hp
          · exact h.2 p hp
          · simp only [List.mem_singleton] at hp
            rw [hp]
            constructor
            · have hmem := mem_of_getVal_eq_some _ _ _ hs
              have := h.1 _ hmem
              simp only at this
              simp [this, hasKey, hs]
            · have hmem := mem_of_getVal_eq_some _ _ _ ht
              have := h.1 _ hmem
              simp only at this
              simp [this, hasKey, ht]

theorem remove_node_inv (g : GraphManager) (node_id : String) (h : GraphInv g) :
    GraphInv (g.remove_node node_id) := by
  cases hc : getVal node_id g.nodes with
  | none => unfold GraphManager.remove_node; rw [hc]; exact h
  | some node =>
    unfold GraphManager.remove_node
    rw [hc]
    constructor
    · intro p hp
      simp only [List.mem_filter] at hp
      exact h.1 p hp.1
    · intro p hp
      simp only [List.mem_filter, decide_not] at hp
      obtain ⟨hmem, hpred⟩ := hp
      have hends := h.2 p hmem
      have hnotinc : ¬(p.2.source.node.id = node_id ∨ p.2.target.node.id = node_id) := by
        simpa using hpred
      push_neg at hnotinc
      exact ⟨hasKey_filter_ne _ _ _ hnotinc.1 hends.1,
        hasKey_filter_ne _ _ _ hnotinc.2 hends.2⟩

theorem setEdgeStyle_inv (g : GraphManager) (edge_id : String) (v : Int) (h : GraphInv g) :
    GraphInv (g.setEdgeStyle edge_id v) := by
  constructor
  · intro p hp
    exact h.1 p hp
  · intro p hp
    simp only [GraphManager.setEdgeStyle, List.mem_map] at hp
    obtain ⟨q, hq, hpq⟩ := hp
    have := h.2 q hq
    by_cases hid : q.1 = edge_id
    · rw [← hpq]
      simpa [hid] using this
    · rw [← hpq]
      simpa [hid] using this

theorem loadNodes_inv : ∀ (l : PyDict GMNodeData) (g g' : GraphManager), GraphInv g →
    GraphManager.loadNodes g l = .ok g' → GraphInv g' := by
  intro l
  induction l with
  | nil =>
    intro g g' h hl
    simp only [GraphManager.loadNodes, Except.ok.injEq] at hl
    rw [← hl]; exact h
  | cons nd rest ih =>
    intro g g' h hl
    simp only [GraphManager.loadNodes] at hl
    cases hfd : entityFromDict nd.2.entity with
    | error msg => rw [hfd] at hl; simp at hl
    | ok entity =>
      rw [hfd] at hl
      exact ih _ _ (add_node_inv g entity nd.2.pos h) hl

theorem loadEdges_inv : ∀ (l : PyDict GMEdgeData) (g : GraphManager), GraphInv g →
    GraphInv (GraphManager.loadEdges g l) := by
  intro l
  induction l with
  | nil => intro g h; exact h
  | cons ed rest ih =>
    intro g h
    simp only [GraphManager.loadEdges]
    cases hr : (g.add_edge ed.2.source ed.2.target ed.2.relationship).2 with
    | some edge =>
      simp only [hr]
      exact ih _ (setEdgeStyle_inv _ _ _ (add_edge_inv g _ _ _ h))
    | none =>
      simp only [hr]
      exact ih _ (add_edge_inv g _ _ _ h)

theorem from_dict_inv (g : GraphManager) (data : GMData) (g' : GraphManager)
    (h : g.from_dict data = .ok g') : GraphInv g' := by
  unfold GraphManager.from_dict at h
  cases hl : GraphManager.loadNodes g.clear data.nodes with
  | error msg => rw [hl] at h; simp at h
  | ok g2 =>
    rw [hl] at h
    simp only [Except.ok.injEq] at h
    rw [← h]
    exact loadEdges_inv _ _ (loadNodes_inv _ _ _ (clear_inv g) hl)

/-! ## `entities/email.py` -/

/-- Modelled from the spec: the `PropertyValidationError` class lives in
the missing `entities/base.py`; spec §4.1 says it carries the property
name, the rejected value and an expected-shape description. -/
structure PropertyValidationError where
  property_name : String
  value : Value
  expected : String
deriving DecidableEq, Repr

/-- Python `str.split(sep)` for a one-character separator: splits at every
occurrence, `"".split("@") = [""]`, `"a@b@c".split("@") = ["a","b","c"]`. -/
def pySplit (sep : Char) : List Char → List (List Char)
  | [] => [[]]
  | c :: cs =>
    if c = sep then [] :: pySplit sep cs
    else
      match pySplit sep cs with
      | [] => [[c]]
      | g :: gs => (c :: g) :: gs

/-- `Email.__post_init__` (`entities/email.py` lines 31-42).  The base
`super().__post_init__()` is modelled as the identity on the properties:
the `except (IndexError, AttributeError)` clause in the source shows that
`@`-less or non-string addresses reach the `split` un-validated.  When
`"address"` is present and `"domain"` is not, `domain` is set to
`address.split("@")[1]`; an `IndexError` (no second segment) or
`AttributeError` (non-string `.split`) becomes `PropertyValidationError`. -/
def Email.post_init (props : PyDict Value) : Except PropertyValidationError (PyDict Value) :=
  if hasKey "address" props && !hasKey "domain" props then
    match getVal "address" props with
    | some (.str s) =>
      match (pySplit '@' s.data)[1]? with
      | some seg => .ok (setKey "domain" (.str (String.mk seg)) props)
      | none => .error ⟨"address", .str s, "valid email address with domain"⟩
    | some v => .error ⟨"address", v, "valid email address with domain"⟩
    | none => .ok props
  else .ok props

/-! ## Transform execution (`ui/components/node_visual.py` lines 341-373,
`transforms/username_search.py`) -/

/-- A scraped search result (`{"url": ..., "title": ..., "description":
..., "source": ...}`). -/
structure SearchResult where
  url : String
  title : String
  rdescription : String
  source : String
deriving DecidableEq, Repr

/-- The result-placement loop of `_execute_transform` (lines 360-369):
add each new entity at its computed circle position, then connect it to
the source node with a generic edge.  (The trigonometric placement is
abstracted into `place`; positions play no role in the claims.) -/
def addTransformResults : GraphManager → String → (Nat → Pos) → Nat → List Entity → GraphManager
  | g, _, _, _, [] => g
  | g, src_id, place, i, e :: rest =>
    addTransformResults (((g.add_node e (place i)).1.add_edge src_id e.id "").1)
      src_id place (i + 1) rest

/-- `NodeVisual._execute_transform` (lines 341-373): `transform.run` is
awaited inside `try`; an exception is caught, shown in a critical message
box and re-raised into the fire-and-forget task (the host keeps running);
only a successful, non-empty result mutates the graph. -/
def execute_transform (g : GraphManager) (src_id : String) (place : Nat → Pos)
    (run_result : Except String (List Entity)) : GraphManager × Option String :=
  match run_result with
  | .error msg => (g, some msg)
  | .ok new_entities =>
    if new_entities.isEmpty then (g, none)
    else (addTransformResults g src_id place 0 new_entities, none)

/-- Accumulate loop results until the first in-loop exception (the
`try` block wraps the whole extraction loop; `results` gathered so far
are returned by the `except` handler). -/
def collectUntilError {α : Type} : List (Except String α) → List α
  | [] => []
  | .ok x :: rest => x :: collectUntilError rest
  | .error _ :: _ => []

/-- `UsernameToWebsite._search_bing` (lines 36-60): a failed request (or
a non-200 status) yields no results; per-item extraction failures abort
the loop, returning what was accumulated. -/
def search_bing (response : Except String (List (Except String SearchResult))) :
    List SearchResult :=
  match response with
  | .error _ => []
  | .ok items => collectUntilError items

/-- `UsernameToWebsite._search_google` (lines 62-87): same error shape as
the Bing search. -/
def search_google (response : Except String (List (Except String SearchResult))) :
    List SearchResult :=
  match response with
  | .error _ => []
  | .ok items => collectUntilError items

/-- `UsernameToWebsite._run_sync` (lines 125-147): concatenate both search
passes, then build entities, silently skipping any result whose entity
construction raises (`except Exception: continue`). -/
def run_sync (bing google : Except String (List (Except String SearchResult)))
    (create : SearchResult → Except String Entity) : List Entity :=
  (search_bing bing ++ search_google google).filterMap (fun r => (create r).toOption)

/-! ## Investigation files (`pano.py` save/load, `DateTimeEncoder`) -/

/-- A JSON document. -/
inductive Json where
  | null
  | str (s : String)
  | num (n : Int)
  | bool (b : Bool)
  | arr (xs : List Json)
  | obj (fields : List (String × Json))
deriving Repr

/-- `json.dumps(..., cls=DateTimeEncoder)` on a property value: the
custom encoder (lines 58-65) turns `datetime` objects into their
ISO-8601 `isoformat()` string; plain values encode natively. -/
def valueToJson : Value → Json
  | .str s => .str s
  | .dt d => .str d.isoformat
  | .bool b => .bool b
  | .int n => .num n

/-- A property dict as a JSON object. -/
def dictToJson (d : PyDict Value) : Json :=
  .obj (d.map (fun p => (p.1, valueToJson p.2)))

/-- A canvas position as the `{'x': ..., 'y': ...}` object. -/
def posJson (p : Pos) : Json :=
  .obj [("x", .num p.x), ("y", .num p.y)]

/-- One element of the saved `nodes` array
(`MainWindow.save_investigation` lines 411-422). -/
def nodeJson (p : String × NodeVisual) : Json :=
  .obj [("id", .str p.1), ("entity_type", .str p.2.node.etype),
    ("properties", dictToJson (entityToDict p.2.node)), ("pos", posJson p.2.pos)]

/-- The saved `style` object of an edge. -/
def styleJson (st : EdgeStyle) : Json :=
  .obj [("pen_style", .num st.style), ("color", .str st.color), ("width", .num st.width)]

/-- One element of the saved `edges` array (lines 424-444): mandatory
`id`, `source`, `target`, `relationship`, `style`; `label` and
`properties` only when the attributes exist on the edge. -/
def edgeJson (p : String × EdgeVisual) : Json :=
  .obj ([("id", .str p.1), ("source", .str p.2.source.node.id),
    ("target", .str p.2.target.node.id), ("relationship", .str p.2.relationship),
    ("style", styleJson p.2.style)] ++
    (match p.2.label with
     | some l => [("label", .str l)]
     | none => []) ++
    (match p.2.eprops with
     | some pr => [("properties", dictToJson pr)]
     | none => []))

/-- `MainWindow.save_investigation` (lines 408-454): the JSON document
written to the `.pano` file — top-level `nodes` and `edges` arrays only. -/
def save_investigation (g : GraphManager) : Json :=
  .obj [("nodes", .arr (g.nodes.map nodeJson)), ("edges", .arr (g.edges.map edgeJson))]

/-- Field access on a parsed JSON object. -/
def Json.getField : Json → String → Option Json
  | .obj fs, k => getVal k fs
  | _, _ => none

/-- The keys of a JSON object. -/
def Json.keys : Json → List String
  | .obj fs => fs.map (fun p => p.1)
  | _ => []

/-- `json.loads` output of a scalar as a property value. -/
def jsonToValue : Json → Option Value
  | .str s => some (.str s)
  | .num n => some (.int n)
  | .bool b => some (.bool b)
  | _ => none

/-- Parsed JSON object fields as property-dict entries. -/
def jsonFieldsToDict : List (String × Json) → Option (PyDict Value)
  | [] => some []
  | p :: rest =>
    match jsonToValue p.2, jsonFieldsToDict rest with
    | some v, some d => some ((p.1, v) :: d)
    | _, _ => none

/-- A parsed JSON object as a property dict (scalar values only, which is
what saved property dicts contain). -/
def jsonToDict : Json → Option (PyDict Value)
  | .obj fs => jsonFieldsToDict fs
  | _ => none

/-- `ENTITY_TYPES[entity_type].from_dict(properties)` in
`load_investigation`: only `Event` overrides the base `from_dict`. -/
def classFromDict (ty : String) (d : PyDict Value) : Except String Entity :=
  if ty == "Event" then Event.from_dict d else .ok (Entity.from_dict_base ty d)

/-- `node_data['pos']` parsing. -/
def parsePos (j : Json) : Except String Pos :=
  match j.getField "x", j.getField "y" with
  | some (.num x), some (.num y) => .ok ⟨x, y⟩
  | _, _ => .error "KeyError: pos"

/-- One iteration of the node-loading loop in `load_investigation`
(lines 490-501): read the fields, plant the id under `'_id'`, rebuild the
entity through its class `from_dict`, and `add_node` it.  A missing key
or a failing deserialization raises out of the loop (caught by the
surrounding handler, which shows a modal error). -/
def loadNode (g : GraphManager) (j : Json) : Except String GraphManager :=
  match j.getField "id", j.getField "entity_type", j.getField "properties", j.getField "pos" with
  | some (.str nid), some (.str ty), some propsJson, some pj =>
    match jsonToDict propsJson, parsePos pj with
    | some props, .ok pos =>
      let props := setKey "_id" (.str nid) props
      match classFromDict ty props with
      | .ok entity => .ok (g.add_node entity pos).1
      | .error msg => .error msg
    | _, _ => .error "KeyError: node"
  | _, _, _, _ => .error "KeyError: node"

/-- The node-loading loop of `load_investigation`. -/
def loadNodesJson (g : GraphManager) : List Json → Except String GraphManager
  | [] => .ok g
  | j :: rest =>
    match loadNode g j with
    | .ok g => loadNodesJson g rest
    | .error msg => .error msg

/-- Mutate the stored edge at a key (the loaded `edge` object is the one
held in the manager's `edges` dict). -/
def updateEdge (g : GraphManager) (edge_id : String) (f : EdgeVisual → EdgeVisual) :
    GraphManager :=
  { g with edges := g.edges.map (fun p => if p.1 = edge_id then (p.1, f p.2) else p) }

/-- One iteration of the edge-loading loop in `load_investigation`
(lines 503-527): `add_edge` with the saved relationship, then — only when
an edge was produced — restore the style and the optional `label` and
`properties` attributes. -/
def loadEdge (g : GraphManager) (j : Json) : Except String GraphManager :=
  match j.getField "source", j.getField "target" with
  | some (.str s), some (.str t) =>
    let rel :=
      match j.getField "relationship" with
      | some (.str r) => r
      | _ => ""
    let r := g.add_edge s t rel
    match r.2 with
    | none => .ok r.1
    | some _ =>
      let eid := s ++ "->" ++ t
      let g := r.1
      let styled : Except String GraphManager :=
        match j.getField "style" with
        | some stj =>
          match stj.getField "pen_style", stj.getField "color", stj.getField "width" with
          | some (.num ps), some (.str c), some (.num w) =>
            .ok (updateEdge g eid (fun e => { e with style := ⟨ps, c, w⟩ }))
          | _, _, _ => .error "KeyError: style"
        | none => .ok g
      match styled with
      | .error msg => .error msg
      | .ok g =>
        let g :=
          match j.getField "label" with
          | some (.str l) => updateEdge g eid (fun e => { e with label := some l })
          | _ => g
        let g :=
          match j.getField "properties" with
          | some pj =>
            match jsonToDict pj with
            | some pd => updateEdge g eid (fun e => { e with eprops := some pd })
            | none => g
          | _ => g
        .ok g
  | _, _ => .error "KeyError: edge"

/-- The edge-loading loop of `load_investigation`. -/
def loadEdgesJson (g : GraphManager) : List Json → Except String GraphManager
  | [] => .ok g
  | j :: rest =>
    match loadEdge g j with
    | .ok g => loadEdgesJson g rest
    | .error msg => .error msg

/-- `MainWindow.load_investigation` (lines 464-532): clear the graph and
the timeline visual's events, then restore nodes and edges from the
document.  A failure anywhere raises into the surrounding handler. -/
def load_investigation (doc : Json) : Except String GraphManager :=
  match doc.getField "nodes", doc.getField "edges" with
  | some (.arr nodesArr), some (.arr edgesArr) =>
    match loadNodesJson GraphManager.empty nodesArr with
    | .error msg => .error msg
    | .ok g => loadEdgesJson g edgesArr
  | _, _ => .error "KeyError: investigation"

/-! ## Support lemmas for the claims -/

/-- Number of entries carrying a key. -/
def countKey {α : Type} (d : PyDict α) (k : String) : Nat :=
  (d.filter (fun p => p.1 = k)).length

/-- Whether a value is a structured datetime. -/
def Value.isDt : Value → Bool
  | .dt _ => true
  | _ => false

theorem hasKey_filter_self {α : Type} (k : String) (d : PyDict α) :
    hasKey k (d.filter (fun p => p.1 ≠ k)) = false := by
  induction d with
  | nil => rfl
  | cons p rest ih =>
    by_cases hp : p.1 = k
    · rw [List.filter_cons_of_neg (by simp [hp])]
      exact ih
    · rw [List.filter_cons_of_pos (by simp [hp])]
      simpa [hasKey, getVal, hp] using ih

theorem getVal_of_countKey_zero {α : Type} (d : PyDict α) (k : String)
    (h : countKey d k = 0) : getVal k d = none := by
  induction d with
  | nil => rfl
  | cons p rest ih =>
    by_cases hp : p.1 = k
    · exfalso
      unfold countKey at h
      rw [List.filter_cons_of_pos (by simp [hp])] at h
      simp at h
    · unfold countKey at h
      rw [List.filter_cons_of_neg (by simp [hp])] at h
      simp only [getVal, if_neg hp]
      exact ih h

theorem countKey_append {α : Type} (d d' : PyDict α) (k : String) :
    countKey (d ++ d') k = countKey d k + countKey d' k := by
  unfold countKey
  rw [List.filter_append, List.length_append]

theorem getVal_append_self {α : Type} (d : PyDict α) (k : String) (v : α)
    (h : getVal k d = none) : getVal k (d ++ [(k, v)]) = some v := by
  induction d with
  | nil => simp [getVal]
  | cons p rest ih =>
    by_cases hp : p.1 = k
    · simp [getVal, hp] at h
    · simp only [getVal, if_neg hp] at h
      simp only [List.cons_append, getVal, if_neg hp]
      exact ih h

theorem mem_setKey_nodup {α : Type} :
    ∀ (d : PyDict α) (k : String) (v : α) (q : String × α),
    (d.map Prod.fst).Nodup → q ∈ setKey k v d → q = (k, v) ∨ (q ∈ d ∧ q.1 ≠ k) := by
  intro d
  induction d with
  | nil =>
    intro k v q _ hq
    simp only [setKey, List.mem_singleton] at hq
    exact Or.inl hq
  | cons p rest ih =>
    intro k v q hnd hq
    simp only [List.map_cons, List.nodup_cons] at hnd
    by_cases hp : p.1 = k
    · simp only [setKey, if_pos hp] at hq
      rcases List.mem_cons.mp hq with hq | hq
      · exact Or.inl hq
      · right
        refine ⟨List.mem_cons_of_mem p hq, ?_⟩
        intro hqk
        exact hnd.1 (by rw [hp, ← hqk]; exact List.mem_map_of_mem Prod.fst hq)
    · simp only [setKey, if_neg hp] at hq
      rcases List.mem_cons.mp hq with hq | hq
      · right
        rw [hq]
        exact ⟨List.mem_cons_self p rest, hp⟩
      · rcases ih k v q hnd.2 hq with h | h
        · exact Or.inl h
        · exact Or.inr ⟨List.mem_cons_of_mem p h.1, h.2⟩

theorem jsonFieldsToDict_map (d : PyDict Value)
    (h : ∀ p ∈ d, p.2.isDt = false) :
    jsonFieldsToDict (d.map (fun p => (p.1, valueToJson p.2))) = some d := by
  induction d with
  | nil => rfl
  | cons p rest ih =>
    have hp := h p (List.mem_cons_self p rest)
    have hrest := ih (fun q hq => h q (List.mem_cons_of_mem p hq))
    have hhead : jsonToValue (valueToJson p.2) = some p.2 := by
      cases hv : p.2 with
      | str s => rfl
      | dt dd => rw [hv] at hp; simp [Value.isDt] at hp
      | bool b => rfl
      | int n => rfl
    simp only [List.map_cons, jsonFieldsToDict, hhead, hrest]

theorem jsonToDict_dictToJson (d : PyDict Value)
    (h : ∀ p ∈ d, p.2.isDt = false) : jsonToDict (dictToJson d) = some d := by
  simpa [jsonToDict, dictToJson] using jsonFieldsToDict_map d h

/-! ### `pySplit` facts (Python `str.split`) -/

theorem pySplit_ne_nil (sep : Char) : ∀ cs : List Char, pySplit sep cs ≠ [] := by
  intro cs
  induction cs with
  | nil => simp [pySplit]
  | cons c rest ih =>
    by_cases hc : c = sep
    · simp [pySplit, hc]
    · simp only [pySplit, if_neg hc]
      cases hs : pySplit sep rest with
      | nil => simp
      | cons g gs => simp

theorem pySplit_no_sep (sep : Char) : ∀ cs : List Char, sep ∉ cs →
    pySplit sep cs = [cs] := by
  intro cs
  induction cs with
  | nil => intro _; rfl
  | cons c rest ih =>
    intro h
    have hc : ¬(c = sep) := fun hh => h (by rw [hh]; exact List.mem_cons_self sep rest)
    have hrest : sep ∉ rest := fun hh => h (List.mem_cons_of_mem c hh)
    simp only [pySplit, if_neg hc, ih hrest]

theorem pySplit_append (sep : Char) : ∀ (l r : List Char), sep ∉ l →
    pySplit sep (l ++ sep :: r) = l :: pySplit sep r := by
  intro l
  induction l with
  | nil =>
    intro r _
    simp [pySplit]
  | cons c rest ih =>
    intro r h
    have hc : ¬(c = sep) := fun hh => h (by rw [hh]; exact List.mem_cons_self sep rest)
    have hrest : sep ∉ rest := fun hh => h (List.mem_cons_of_mem c hh)
    simp only [List.cons_append, pySplit, if_neg hc, List.append_eq, ih r hrest]

theorem pySplit_head (sep : Char) : ∀ cs : List Char,
    (pySplit sep cs)[0]? = some (cs.takeWhile (fun c => c != sep)) := by
  intro cs
  induction cs with
  | nil => rfl
  | cons c rest ih =>
    by_cases hc : c = sep
    · simp [pySplit, hc, List.takeWhile]
    · simp only [pySplit, if_neg hc]
      cases hs : pySplit sep rest with
      | nil => exact absurd hs (pySplit_ne_nil sep rest)
      | cons g gs =>
        rw [hs] at ih
        simp only [List.getElem?_cons_zero, Option.some_inj] at ih
        have hb : (c != sep) = true := bne_iff_ne.mpr hc
        simp [List.takeWhile, hc, ih, hb]

theorem getVal_eq_none_of_hasKey_false {α : Type} (d : PyDict α) (k : String)
    (h : hasKey k d = false) : getVal k d = none := by
  unfold hasKey at h
  cases hg : getVal k d with
  | none => rfl
  | some v => rw [hg] at h; simp at h

/-! ## Example fixtures used by the witnesses -/

/-- Example: a person entity (`create Person P1` in spec §8). -/
def personEnt : Entity := ⟨"p1", "Person", [("full_name", Value.str "Ada")]⟩

/-- Example: an email entity. -/
def emailEnt : Entity := ⟨"m1", "Email", [("address", Value.str "ada@example.com")]⟩

/-- Example graph: two nodes connected by an `owns` edge. -/
def gExample : GraphManager :=
  ⟨[("p1", ⟨personEnt, ⟨0, 0⟩⟩), ("m1", ⟨emailEnt, ⟨10, 5⟩⟩)],
   [("p1->m1", ⟨⟨personEnt, ⟨0, 0⟩⟩, ⟨emailEnt, ⟨10, 5⟩⟩, "owns", ⟨1, "#000000", 1⟩,
     none, none⟩)],
   []⟩

/-! ## Claim theorems -/

/-- C2: `remove_node(id)` removes every edge whose source or target is
the removed node before removing the node (zero edges reference the id
afterwards, and the id is gone from the node collection); for an unknown
id it logs and leaves the manager unchanged. -/
theorem remove_node_cascades_and_noop (g : GraphManager) (node_id : String) :
    (hasKey node_id g.nodes = true →
      (∀ p ∈ (g.remove_node node_id).edges,
        p.2.source.node.id ≠ node_id ∧ p.2.target.node.id ≠ node_id) ∧
      hasKey node_id (g.remove_node node_id).nodes = false) ∧
    (hasKey node_id g.nodes = false → g.remove_node node_id = g) := by
  constructor
  · intro hk
    obtain ⟨node, hnode, _⟩ := getVal_eq_some_of_mem g.nodes node_id hk
    unfold GraphManager.remove_node
    rw [hnode]
    constructor
    · intro p hp
      simp only [List.mem_filter, decide_not] at hp
      have hpred : ¬(p.2.source.node.id = node_id ∨ p.2.target.node.id = node_id) := by
        simpa using hp.2
      push_neg at hpred
      exact hpred
    · exact hasKey_filter_self _ _
  · intro hk
    unfold GraphManager.remove_node
    rw [getVal_eq_none_of_hasKey_false _ _ hk]

/-- C2 witness: removing `p1` from the example graph deletes the
incident `owns` edge and the node; removing an unknown id is a no-op. -/
theorem remove_node_cascades_and_noop_witness :
    ((∀ p ∈ (gExample.remove_node "p1").edges,
        p.2.source.node.id ≠ "p1" ∧ p.2.target.node.id ≠ "p1") ∧
      hasKey "p1" (gExample.remove_node "p1").nodes = false) ∧
    gExample.remove_node "zz" = gExample :=
  ⟨(remove_node_cascades_and_noop gExample "p1").1 (by decide),
   (remove_node_cascades_and_noop gExample "zz").2 (by decide)⟩

/-- C3: `add_node` is idempotent by entity id — with the id already
present it returns the existing visual and changes nothing, and adding
twice with the same id leaves exactly one node under that id. -/
theorem add_node_idempotent (g : GraphManager) (e e2 : Entity) (pos pos2 : Pos) :
    (∀ n, getVal e.id g.nodes = some n → g.add_node e pos = (g, n)) ∧
    (e2.id = e.id → countKey g.nodes e.id = 0 →
      countKey (((g.add_node e pos).1.add_node e2 pos2).1).nodes e.id = 1) := by
  constructor
  · intro n hn
    exact add_node_of_present g e pos n hn
  · intro heq h0
    have hnone : getVal e.id g.nodes = none := getVal_of_countKey_zero _ _ h0
    have h1nodes : (g.add_node e pos).1.nodes = g.nodes ++ [(e.id, ⟨e, pos⟩)] :=
      add_node_nodes_of_absent g e pos hnone
    have hget : getVal e2.id ((g.add_node e pos).1).nodes = some ⟨e, pos⟩ := by
      rw [heq, h1nodes]
      exact getVal_append_self _ _ _ hnone
    rw [add_node_of_present _ e2 pos2 _ hget, h1nodes, countKey_append, h0]
    simp [countKey]

/-- C3 witness: adding the same entity id twice to the empty manager
leaves exactly one node, and re-adding to the example graph returns the
stored visual unchanged. -/
theorem add_node_idempotent_witness :
    gExample.add_node personEnt ⟨7, 7⟩ = (gExample, ⟨personEnt, ⟨0, 0⟩⟩) ∧
    countKey (((GraphManager.empty.add_node personEnt ⟨0, 0⟩).1.add_node
      personEnt ⟨9, 9⟩).1).nodes personEnt.id = 1 :=
  ⟨(add_node_idempotent gExample personEnt personEnt ⟨7, 7⟩ ⟨7, 7⟩).1
      ⟨personEnt, ⟨0, 0⟩⟩ (by decide),
   (add_node_idempotent GraphManager.empty personEnt personEnt ⟨0, 0⟩ ⟨9, 9⟩).2
      rfl (by decide)⟩

/-- C4: `add_edge` is idempotent on the (source, target) pair regardless
of the relationship text — with both endpoints present the first call
produces an edge and a second call (even with a different label) returns
that same edge and leaves the manager unchanged; with an absent endpoint
it returns nothing and changes nothing. -/
theorem add_edge_idempotent (g : GraphManager) (s t r1 r2 : String) :
    (hasKey s g.nodes = true → hasKey t g.nodes = true →
      ((g.add_edge s t r1).2).isSome = true ∧
      ((g.add_edge s t r1).1).add_edge s t r2 =
        ((g.add_edge s t r1).1, (g.add_edge s t r1).2)) ∧
    ((hasKey s g.nodes = false ∨ hasKey t g.nodes = false) →
      g.add_edge s t r1 = (g, none)) := by
  constructor
  · intro hs ht
    obtain ⟨src, hsrc, _⟩ := getVal_eq_some_of_mem _ _ hs
    obtain ⟨tgt, htgt, _⟩ := getVal_eq_some_of_mem _ _ ht
    cases he : getVal (s ++ "->" ++ t) g.edges with
    | some edge =>
      rw [add_edge_of_existing g s t r1 src tgt edge hsrc htgt he]
      exact ⟨by simp, by rw [add_edge_of_existing g s t r2 src tgt edge hsrc htgt he]⟩
    | none =>
      rw [add_edge_of_new g s t r1 src tgt hsrc htgt he]
      refine ⟨by simp, ?_⟩
      have he' : getVal (s ++ "->" ++ t)
          ({ g with edges := g.edges ++
            [(s ++ "->" ++ t, ⟨src, tgt, r1, defaultEdgeStyle, none, none⟩)] } :
              GraphManager).edges =
          some ⟨src, tgt, r1, defaultEdgeStyle, none, none⟩ :=
        getVal_append_self _ _ _ he
      exact add_edge_of_existing _ s t r2 src tgt _ hsrc htgt he'
  · intro h
    rcases h with h | h
    · exact add_edge_of_missing_endpoint g s t r1
        (Or.inl (getVal_eq_none_of_hasKey_false _ _ h))
    · exact add_edge_of_missing_endpoint g s t r1
        (Or.inr (getVal_eq_none_of_hasKey_false _ _ h))

/-- C4 witness: re-adding the `p1 -> m1` edge with a different label
returns the stored `owns` edge and leaves the graph unchanged; an edge
to an absent endpoint yields nothing. -/
theorem add_edge_idempotent_witness :
    ((gExample.add_edge "p1" "m1" "knows").2).isSome = true ∧
    ((gExample.add_edge "p1" "m1" "knows").1).add_edge "p1" "m1" "other" =
      ((gExample.add_edge "p1" "m1" "knows").1, (gExample.add_edge "p1" "m1" "knows").2) ∧
    gExample.add_edge "p1" "zz" "owns" = (gExample, none) :=
  ⟨((add_edge_idempotent gExample "p1" "m1" "knows" "other").1 (by decide) (by decide)).1,
   ((add_edge_idempotent gExample "p1" "m1" "knows" "other").1 (by decide) (by decide)).2,
   (add_edge_idempotent gExample "p1" "zz" "owns" "owns").2 (Or.inr (by decide))⟩

/-- C5: every graph-manager mutation — `add_node`, `add_edge`,
`remove_node`, `clear` and a successful `from_dict` — preserves the
invariant that both endpoints of every stored edge reference nodes
present in the node collection (together with the node-key consistency
that backs it). -/
theorem mutations_preserve_edge_invariant :
    (∀ (g : GraphManager) (e : Entity) (pos : Pos), GraphInv g →
      GraphInv (g.add_node e pos).1) ∧
    (∀ (g : GraphManager) (s t r : String), GraphInv g → GraphInv (g.add_edge s t r).1) ∧
    (∀ (g : GraphManager) (node_id : String), GraphInv g → GraphInv (g.remove_node node_id)) ∧
    (∀ g : GraphManager, GraphInv g.clear) ∧
    (∀ (g g' : GraphManager) (data : GMData), g.from_dict data = .ok g' → GraphInv g') :=
  ⟨add_node_inv, add_edge_inv, remove_node_inv, clear_inv,
   fun g g' data h => from_dict_inv g data g' h⟩

/-- C5 witness: the invariant holds after each mutation on the example
graph (which satisfies it). -/
theorem mutations_preserve_edge_invariant_witness :
    GraphInv ((gExample.add_node ⟨"t1", "Text", []⟩ ⟨3, 3⟩).1) ∧
    GraphInv ((gExample.add_edge "m1" "p1" "belongs to").1) ∧
    GraphInv (gExample.remove_node "p1") ∧
    GraphInv gExample.clear :=
  ⟨mutations_preserve_edge_invariant.1 gExample ⟨"t1", "Text", []⟩ ⟨3, 3⟩ (by decide),
   mutations_preserve_edge_invariant.2.1 gExample "m1" "p1" "belongs to" (by decide),
   mutations_preserve_edge_invariant.2.2.1 gExample "p1" (by decide),
   mutations_preserve_edge_invariant.2.2.2.1 gExample⟩

/-- Decidable equality for `Except`, used to evaluate the concrete
counterexamples and witnesses. -/
def exceptDecEq {ε α : Type} [DecidableEq ε] [DecidableEq α] :
    (x y : Except ε α) → Decidable (x = y)
  | .ok a, .ok b =>
    match decEq a b with
    | isTrue h => isTrue (by rw [h])
    | isFalse h => isFalse (fun hh => h (by injection hh))
  | .ok _, .error _ => isFalse (fun hh => Except.noConfusion hh)
  | .error _, .ok _ => isFalse (fun hh => Except.noConfusion hh)
  | .error e, .error f =>
    match decEq e f with
    | isTrue h => isTrue (by rw [h])
    | isFalse h => isFalse (fun hh => h (by injection hh))

instance {ε α : Type} [DecidableEq ε] [DecidableEq α] : DecidableEq (Except ε α) :=
  exceptDecEq

theorem Value.str_truthy (s : String) (h : s ≠ "") : (Value.str s).truthy = true := by
  cases hb : s.isEmpty with
  | false => simp [Value.truthy, hb]
  | true => exact absurd ((String.isEmpty_iff s).mp (by simp [hb])) h

/-- An event entity whose `start_date` property is a (malformed) plain
string — a state the source itself anticipates (`isinstance(self.start_date,
str)` branches in `event.py`). -/
def eventStrDate : Entity := ⟨"e1", "Event", [("start_date", Value.str "not-a-date")]⟩

/-- C1 counterexample: for an event carrying a string-valued
`start_date`, `from_dict(to_dict(e))` does not reproduce the entity — it
raises (`datetime.fromisoformat` has no fallback in `from_dict`). -/
theorem event_roundtrip_counterexample :
    Event.from_dict (Event.to_dict eventStrDate) =
      .error "ValueError: invalid isoformat string" ∧
    Event.from_dict (Event.to_dict eventStrDate) ≠ .ok eventStrDate := by
  constructor
  · decide
  · decide

/-- C1 (amended): for every event whose `start_date` and `end_date`
properties are each absent, the empty string, or an in-range structured
datetime (and whose properties avoid the reserved `_id`/`type` keys),
`from_dict(to_dict(e))` reproduces the entity exactly; datetimes
serialize to ISO-8601 strings and parse back. -/
theorem event_serialization_roundtrip (e : Entity)
    (he : e.etype = "Event")
    (hid : hasKey "_id" e.properties = false)
    (hty : hasKey "type" e.properties = false)
    (hsd : dateFieldOk (getVal "start_date" e.properties))
    (hed : dateFieldOk (getVal "end_date" e.properties)) :
    Event.from_dict (Event.to_dict e) = .ok e :=
  event_roundtrip_core e he hid hty hsd hed

/-- An event with structured datetime dates. -/
def eventDtExample : Entity :=
  ⟨"e2", "Event", [("name", Value.str "Party"),
    ("start_date", Value.dt ⟨2024, 1, 2, 3, 4, 5, 0⟩),
    ("end_date", Value.dt ⟨2024, 1, 2, 5, 0, 0, 500⟩)]⟩

/-- C1 witness: the round trip at a concrete datetime-valued event. -/
theorem event_serialization_roundtrip_witness :
    Event.from_dict (Event.to_dict eventDtExample) = .ok eventDtExample :=
  event_serialization_roundtrip eventDtExample rfl (by decide) (by decide)
    (by decide) (by decide)

/-- C6 counterexample: deserialization does not degrade to a raw-string
fallback — `Event.from_dict` raises on a malformed non-empty date
string. -/
theorem event_from_dict_malformed_counterexample :
    Event.from_dict [("_id", Value.str "e1"), ("type", Value.str "Event"),
      ("start_date", Value.str "not-a-date")] =
      .error "ValueError: invalid isoformat string" := by
  decide

/-- C6 (amended): display (`get_display_properties`) degrades to the raw
string for a malformed date, but deserialization (`from_dict`) raises on
any malformed non-empty date string (only absent or empty dates are
tolerated). -/
theorem display_falls_back_deserialization_raises :
    (∀ (e : Entity) (s : String), getVal "start_date" e.properties = some (.str s) →
      s ≠ "" → DateTime.fromisoformat s = none →
      getVal "start_date" (Event.get_display_properties e) = some s) ∧
    (∀ (e : Entity) (s : String), getVal "end_date" e.properties = some (.str s) →
      s ≠ "" → DateTime.fromisoformat s = none →
      getVal "end_date" (Event.get_display_properties e) = some s) ∧
    (∀ (d : PyDict Value) (s : String), getVal "start_date" d = some (.str s) →
      s ≠ "" → DateTime.fromisoformat s = none →
      Event.from_dict d = .error "ValueError: invalid isoformat string") := by
  refine ⟨?_, ?_, ?_⟩
  · intro e s h hne hbad
    have hacc : Event.start_date e = Value.str s := by
      unfold Event.start_date Entity.getProp
      rw [h]
      rfl
    unfold Event.get_display_properties
    simp only [hacc, Value.str_truthy s hne, if_true, hbad]
    split
    all_goals try split
    all_goals try split
    all_goals first
      | exact getVal_setKey_self _ _ _
      | (rw [getVal_setKey_ne _ _ _ _ (show ("start_date" : String) ≠ "end_date" by decide)]
         exact getVal_setKey_self _ _ _)
  · intro e s h hne hbad
    have hacc : Event.end_date e = Value.str s := by
      unfold Event.end_date Entity.getProp
      rw [h]
      rfl
    unfold Event.get_display_properties
    simp only [hacc, Value.str_truthy s hne, if_true, hbad]
    exact getVal_setKey_self _ _ _
  · intro d s h hne hbad
    unfold Event.from_dict
    simp only [h, Value.str_truthy s hne, if_true, fromisoformatValue, hbad]

/-- C6 witness: concrete malformed dates — display yields the raw
strings, deserialization errors. -/
theorem display_falls_back_witness :
    getVal "start_date" (Event.get_display_properties
      ⟨"e6", "Event", [("start_date", Value.str "junk"), ("end_date", Value.str "junk2")]⟩) =
      some "junk" ∧
    getVal "end_date" (Event.get_display_properties
      ⟨"e6", "Event", [("start_date", Value.str "junk"), ("end_date", Value.str "junk2")]⟩) =
      some "junk2" ∧
    Event.from_dict [("start_date", Value.str "junk")] =
      .error "ValueError: invalid isoformat string" :=
  ⟨display_falls_back_deserialization_raises.1 _ "junk" (by decide) (by decide) (by decide),
   display_falls_back_deserialization_raises.2.1 _ "junk2" (by decide) (by decide) (by decide),
   display_falls_back_deserialization_raises.2.2 _ "junk" (by decide) (by decide) (by decide)⟩

/-- C10 counterexample: for the address `a@b@c`, construction populates
`domain` with `b` — the segment between the first and second `@` — not
with `b@c`, the part of the address after the first `@`. -/
theorem email_domain_counterexample :
    Email.post_init [("address", Value.str "a@b@c")] =
      .ok [("address", Value.str "a@b@c"), ("domain", Value.str "b")] ∧
    ("b" : String) ≠ "b@c" := by
  constructor
  · decide
  · decide

/-- C10 (amended): with an `address` and no `domain`, construction sets
`domain` to `address.split("@")[1]` — the text between the first and
second `@` (which is everything after the `@` when the address contains
exactly one); an address with no `@`, or a non-string address, raises
`PropertyValidationError` naming the `address` property and the rejected
value. -/
theorem email_domain_autopopulate :
    (∀ (props : PyDict Value) (s : String) (l r : List Char),
      getVal "address" props = some (.str s) → hasKey "domain" props = false →
      s.data = l ++ '@' :: r → '@' ∉ l →
      Email.post_init props =
        .ok (setKey "domain" (.str (String.mk (r.takeWhile (fun c => c != '@')))) props)) ∧
    (∀ (props : PyDict Value) (s : String),
      getVal "address" props = some (.str s) → hasKey "domain" props = false →
      '@' ∉ s.data →
      Email.post_init props = .error ⟨"address", .str s, "valid email address with domain"⟩) ∧
    (∀ (props : PyDict Value) (v : Value),
      getVal "address" props = some v → hasKey "domain" props = false →
      (∀ s', v ≠ .str s') →
      Email.post_init props = .error ⟨"address", v, "valid email address with domain"⟩) := by
  refine ⟨?_, ?_, ?_⟩
  · intro props s l r haddr hdom hdata hl
    have hk : hasKey "address" props = true := by
      unfold hasKey
      rw [haddr]
      rfl
    unfold Email.post_init
    simp only [hk, hdom, Bool.not_false, Bool.and_self, if_true, haddr, hdata,
      pySplit_append '@' l r hl]
    rw [List.getElem?_cons_succ, pySplit_head]
  · intro props s haddr hdom hnosep
    have hk : hasKey "address" props = true := by
      unfold hasKey
      rw [haddr]
      rfl
    unfold Email.post_init
    simp only [hk, hdom, Bool.not_false, Bool.and_self, if_true, haddr,
      pySplit_no_sep '@' s.data hnosep]
    try rfl
  · intro props v haddr hdom hnotstr
    have hk : hasKey "address" props = true := by
      unfold hasKey
      rw [haddr]
      rfl
    unfold Email.post_init
    cases v with
    | str s => exact absurd rfl (hnotstr s)
    | dt d => simp only [hk, hdom, Bool.not_false, Bool.and_self, if_true, haddr]
    | bool b => simp only [hk, hdom, Bool.not_false, Bool.and_self, if_true, haddr]
    | int n => simp only [hk, hdom, Bool.not_false, Bool.and_self, if_true, haddr]

/-- C10 witness: a well-formed single-`@` address gets its domain; a
`@`-less address and an integer address raise the validation error. -/
theorem email_domain_autopopulate_witness :
    Email.post_init [("address", Value.str "user@example.com")] =
      .ok [("address", Value.str "user@example.com"), ("domain", Value.str "example.com")] ∧
    Email.post_init [("address", Value.str "nodomain")] =
      .error ⟨"address", Value.str "nodomain", "valid email address with domain"⟩ ∧
    Email.post_init [("address", Value.int 5)] =
      .error ⟨"address", Value.int 5, "valid email address with domain"⟩ := by
  refine ⟨?_, ?_, ?_⟩
  · rw [email_domain_autopopulate.1 [("address", Value.str "user@example.com")]
      "user@example.com" ("user".data) ("example.com".data)
      (by decide) (by decide) (by decide) (by decide)]
    decide
  · exact email_domain_autopopulate.2.1 [("address", Value.str "nodomain")] "nodomain"
      (by decide) (by decide) (by decide)
  · exact email_domain_autopopulate.2.2 [("address", Value.int 5)] (Value.int 5)
      (by decide) (by decide) (fun s' h => Value.noConfusion h)

/-- C8: a failing transform run is caught at the boundary and reported
while the graph is left untouched; and `_run_sync` still returns every
entity successfully derived from the sub-steps that did succeed, whatever
else failed. -/
theorem transform_errors_contained :
    (∀ (g : GraphManager) (src_id : String) (place : Nat → Pos) (msg : String),
      execute_transform g src_id place (.error msg) = (g, some msg)) ∧
    (∀ (bing google : Except String (List (Except String SearchResult)))
      (create : SearchResult → Except String Entity) (r : SearchResult) (ent : Entity),
      r ∈ search_bing bing ++ search_google google → create r = .ok ent →
      ent ∈ run_sync bing google create) := by
  constructor
  · intro g src_id place msg
    rfl
  · intro bing google create r ent hr hc
    unfold run_sync
    exact List.mem_filterMap.mpr ⟨r, hr, by simp [hc, Except.toOption]⟩

/-- C8 witness: a concrete failing run leaves the example graph
untouched and reports the message; with the Bing pass failing entirely,
an entity derived from the surviving Google result is still returned. -/
theorem transform_errors_contained_witness :
    execute_transform gExample "p1" (fun _ => ⟨0, 0⟩) (.error "boom") =
      (gExample, some "boom") ∧
    (⟨"w", "Website", []⟩ : Entity) ∈ run_sync (.error "net down")
      (.ok [.ok ⟨"https://example.com", "t", "d", "Google"⟩])
      (fun _ => .ok ⟨"w", "Website", []⟩) :=
  ⟨transform_errors_contained.1 gExample "p1" (fun _ => ⟨0, 0⟩) "boom",
   transform_errors_contained.2 (.error "net down")
     (.ok [.ok ⟨"https://example.com", "t", "d", "Google"⟩])
     (fun _ => .ok ⟨"w", "Website", []⟩) ⟨"https://example.com", "t", "d", "Google"⟩
     ⟨"w", "Website", []⟩ (by decide) rfl⟩

/-- C7 (amended): the saved investigation document has exactly the
top-level `nodes` and `edges` arrays; each node object has exactly the
fields `id`, `entity_type`, `properties` and `pos` (not `position`);
each edge object has `id`, `source`, `target`, `relationship`, `style`
plus `label`/`properties` exactly when those attributes exist; datetime
property values are encoded as ISO-8601 strings. -/
theorem save_document_shape :
    (∀ g : GraphManager, Json.keys (save_investigation g) = ["nodes", "edges"]) ∧
    (∀ g : GraphManager, (save_investigation g).getField "nodes" =
      some (.arr (g.nodes.map nodeJson))) ∧
    (∀ p : String × NodeVisual,
      Json.keys (nodeJson p) = ["id", "entity_type", "properties", "pos"]) ∧
    (∀ g : GraphManager, (save_investigation g).getField "edges" =
      some (.arr (g.edges.map edgeJson))) ∧
    (∀ p : String × EdgeVisual, Json.keys (edgeJson p) =
      ["id", "source", "target", "relationship", "style"] ++
      (match p.2.label with
       | some _ => ["label"]
       | none => []) ++
      (match p.2.eprops with
       | some _ => ["properties"]
       | none => [])) ∧
    (∀ d : DateTime, valueToJson (Value.dt d) = Json.str d.isoformat) := by
  refine ⟨fun g => rfl, fun g => rfl, fun p => rfl, fun g => rfl, ?_, fun d => rfl⟩
  intro p
  cases hl : p.2.label <;> cases he : p.2.eprops <;>
    simp [edgeJson, Json.keys, hl, he]

/-- A one-node example graph for the persisted-format counterexample. -/
def nodeA : NodeVisual := ⟨⟨"a", "Person", []⟩, ⟨0, 0⟩⟩

/-- The example graph holding only `nodeA`. -/
def gSingle : GraphManager := ⟨[("a", nodeA)], [], []⟩

/-- C7 counterexample: the node objects of a saved document carry the
position under the field `pos`, and have no `position` field. -/
theorem save_position_field_counterexample :
    save_investigation gSingle =
      Json.obj [("nodes", Json.arr [nodeJson ("a", nodeA)]), ("edges", Json.arr [])] ∧
    Json.keys (nodeJson ("a", nodeA)) = ["id", "entity_type", "properties", "pos"] ∧
    "position" ∉ Json.keys (nodeJson ("a", nodeA)) := by
  refine ⟨rfl, rfl, by decide⟩

theorem not_mem_keys_of_hasKey_false {α : Type} (d : PyDict α) (k : String)
    (h : hasKey k d = false) : k ∉ d.map Prod.fst := by
  induction d with
  | nil => simp
  | cons p rest ih =>
    by_cases hp : p.1 = k
    · simp [hasKey, getVal, hp] at h
    · simp only [hasKey, getVal, if_neg hp] at h
      simp only [List.map_cons, List.mem_cons]
      rintro (hk | hk)
      · exact hp hk.symm
      · exact (ih h) hk

theorem keys_setKey_of_hasKey {α : Type} (d : PyDict α) (k : String) (v : α)
    (h : hasKey k d = true) : (setKey k v d).map Prod.fst = d.map Prod.fst := by
  induction d with
  | nil => simp [hasKey, getVal] at h
  | cons p rest ih =>
    by_cases hp : p.1 = k
    · simp [setKey, hp]
    · simp only [hasKey, getVal, if_neg hp] at h
      simp [setKey, hp, ih h]

/-- C9: saving a graph holding one event entity with structured start and
end dates and the timeline flag enabled, then reloading the document,
rebuilds the very same manager state — in particular an equivalent
timeline entry keyed by `source_entity_id` to the original entity id. -/
theorem save_load_recreates_timeline_entry (e : Entity) (pos : Pos) (d1 d2 : DateTime)
    (he : e.etype = "Event")
    (hid : hasKey "_id" e.properties = false)
    (hty : hasKey "type" e.properties = false)
    (hnd : (e.properties.map Prod.fst).Nodup)
    (hs : getVal "start_date" e.properties = some (.dt d1)) (hv1 : d1.isValid = true)
    (hh : getVal "end_date" e.properties = some (.dt d2)) (hv2 : d2.isValid = true)
    (hflag : addToTimelineFlag e = true)
    (hnodt : ∀ p ∈ e.properties, p.1 = "start_date" ∨ p.1 = "end_date" ∨ p.2.isDt = false) :
    load_investigation (save_investigation (GraphManager.empty.add_node e pos).1) =
      .ok (GraphManager.empty.add_node e pos).1 ∧
    ((GraphManager.empty.add_node e pos).1).timeline = [mkTimelineEvent e] ∧
    (mkTimelineEvent e).source_entity_id = e.id := by
  have haccs : Event.start_date e = Value.dt d1 := by
    unfold Event.start_date Entity.getProp
    rw [hs]
    rfl
  have hacce : Event.end_date e = Value.dt d2 := by
    unfold Event.end_date Entity.getProp
    rw [hh]
    rfl
  have hook : timelineHookFires e = true := by
    unfold timelineHookFires
    rw [he, haccs, hacce, hflag]
    rfl
  have hg : (GraphManager.empty.add_node e pos).1 =
      ⟨[(e.id, ⟨e, pos⟩)], [], [mkTimelineEvent e]⟩ := by
    unfold GraphManager.add_node GraphManager.empty
    simp [getVal, hook]
  have base_sd : getVal "start_date" (Entity.to_dict e) =
      getVal "start_date" e.properties := by
    simp [Entity.to_dict, getVal_cons]
  have base_ed : getVal "end_date" (Entity.to_dict e) =
      getVal "end_date" e.properties := by
    simp [Entity.to_dict, getVal_cons]
  have htd : Event.to_dict e = setKey "end_date" (.str d2.isoformat)
      (setKey "start_date" (.str d1.isoformat) (Entity.to_dict e)) := by
    simp only [Event.to_dict, haccs, hacce, Value.truthy, if_true]
  have hid_mem : "_id" ∉ e.properties.map Prod.fst := not_mem_keys_of_hasKey_false _ _ hid
  have hty_mem : "type" ∉ e.properties.map Prod.fst := not_mem_keys_of_hasKey_false _ _ hty
  have hnd_base : ((Entity.to_dict e).map Prod.fst).Nodup := by
    simp only [Entity.to_dict, List.map_cons, List.nodup_cons, List.mem_cons]
    refine ⟨?_, ?_, hnd⟩
    · rintro (hk | hk)
      · exact absurd hk (by decide)
      · exact hid_mem hk
    · exact hty_mem
  have hk_sd_base : hasKey "start_date" (Entity.to_dict e) = true := by
    unfold hasKey
    rw [base_sd, hs]
    rfl
  have hnd_set : ((setKey "start_date" (Value.str d1.isoformat)
      (Entity.to_dict e)).map Prod.fst).Nodup := by
    rw [keys_setKey_of_hasKey _ _ _ hk_sd_base]
    exact hnd_base
  have hnodt_td : ∀ p ∈ Event.to_dict e, p.2.isDt = false := by
    intro p hp
    rw [htd] at hp
    rcases mem_setKey_nodup _ _ _ p hnd_set hp with hpe | ⟨hp, hne_ed⟩
    · rw [hpe]; rfl
    · rcases mem_setKey_nodup _ _ _ p hnd_base hp with hpe | ⟨hp, hne_sd⟩
      · rw [hpe]; rfl
      · simp only [Entity.to_dict] at hp
        rcases List.mem_cons.mp hp with hpe | hp
        · rw [hpe]; rfl
        · rcases List.mem_cons.mp hp with hpe | hp
          · rw [hpe]; rfl
          · rcases hnodt p hp with hkey | hkey | hdt
            · exact absurd hkey hne_sd
            · exact absurd hkey hne_ed
            · exact hdt
  have hjson : jsonToDict (dictToJson (Event.to_dict e)) = some (Event.to_dict e) :=
    jsonToDict_dictToJson _ hnodt_td
  have hetd : entityToDict e = Event.to_dict e := by
    unfold entityToDict
    rw [he]
    rfl
  have hgid : getVal "_id" (Event.to_dict e) = some (.str e.id) := by
    rw [htd, getVal_setKey_ne _ _ _ _ (show ("_id" : String) ≠ "end_date" by decide),
      getVal_setKey_ne _ _ _ _ (show ("_id" : String) ≠ "start_date" by decide)]
    simp [Entity.to_dict, getVal_cons]
  have hsetid : setKey "_id" (.str e.id) (Event.to_dict e) = Event.to_dict e :=
    setKey_of_getVal_self _ _ _ hgid
  have hround : Event.from_dict (Event.to_dict e) = .ok e :=
    event_roundtrip_core e he hid hty (Or.inr (Or.inr ⟨d1, hs, hv1⟩))
      (Or.inr (Or.inr ⟨d2, hh, hv2⟩))
  have hload_node : loadNode GraphManager.empty (nodeJson (e.id, ⟨e, pos⟩)) =
      .ok (⟨[(e.id, ⟨e, pos⟩)], [], [mkTimelineEvent e]⟩ : GraphManager) := by
    unfold loadNode nodeJson
    simp only [hetd]
    simp [Json.getField, getVal, parsePos, posJson, classFromDict, hjson, hsetid,
      hround, hg]
    simp [he, hg]
  refine ⟨?_, by rw [hg], rfl⟩
  rw [hg]
  show load_investigation (Json.obj [("nodes", Json.arr [nodeJson (e.id, ⟨e, pos⟩)]),
    ("edges", Json.arr [])]) = _
  unfold load_investigation
  simp [Json.getField, getVal, loadNodesJson, hload_node, loadEdgesJson]

/-- C9 witness: the save/load round trip at a concrete event with both
dates and the default timeline flag. -/
theorem save_load_recreates_timeline_entry_witness :
    load_investigation (save_investigation
      (GraphManager.empty.add_node eventDtExample ⟨4, 2⟩).1) =
      .ok (GraphManager.empty.add_node eventDtExample ⟨4, 2⟩).1 ∧
    ((GraphManager.empty.add_node eventDtExample ⟨4, 2⟩).1).timeline =
      [mkTimelineEvent eventDtExample] ∧
    (mkTimelineEvent eventDtExample).source_entity_id = eventDtExample.id :=
  save_load_recreates_timeline_entry eventDtExample ⟨4, 2⟩
    ⟨2024, 1, 2, 3, 4, 5, 0⟩ ⟨2024, 1, 2, 5, 0, 0, 500⟩
    rfl (by decide) (by decide) (by decide) (by decide) (by decide)
    (by decide) (by decide) (by decide) (by decide)

end Pano
